import Mathlib

/-!
Verification development for the cppress HTTP serving core.

Byte strings are modelled as lists of characters (one `Char` per octet).
The incremental HTTP request parser (src/libs/http/src/http_request_parser.cpp),
the web-server request dispatch (src/libs/web/includes/server.hpp,
src/shared/src/utils.cpp) and the route matching / handler chain
(src/libs/web/includes/route.hpp) are embedded as executable Lean functions,
and the specification claims about them are settled as theorems below.
-/

namespace Cppress

/-- Byte strings of the C++ code are modelled as lists of characters. -/
abbrev Str := List Char

/-! ## Character classification and case mapping (default C locale) -/

/-- Whitespace for the default locale, as used by istringstream extraction. -/
def isCxxSpace (c : Char) : Bool :=
  c = ' ' || c = '\t' || c = '\n' || c = '\x0b' || c = '\x0c' || c = '\r'

/-- Space or horizontal tab, the trim set used by parse_headers. -/
def isSpTab (c : Char) : Bool := c = ' ' || c = '\t'

/-- Decimal digit test, as used when modelling std::stoull. -/
def isDigitChar (c : Char) : Bool := '0' ≤ c && c ≤ '9'

/-- Model of std::toupper on an unsigned char in the default C locale. -/
def toUpperChar (c : Char) : Char :=
  if 'a' ≤ c && c ≤ 'z' then Char.ofNat (c.toNat - 32) else c

/-- Model of std::tolower on an unsigned char in the default C locale. -/
def toLowerChar (c : Char) : Char :=
  if 'A' ≤ c && c ≤ 'Z' then Char.ofNat (c.toNat + 32) else c

/-- Embedding of cppress to_uppercase (src/shared/src/utils.cpp:236). -/
def to_uppercase (s : Str) : Str := s.map toUpperChar

/-- Embedding of cppress to_lowercase (src/shared/src/utils.cpp:229). -/
def to_lowercase (s : Str) : Str := s.map toLowerChar

/-! ## std::multimap with string keys

The parser stores headers in a std::multimap keyed by the uppercased header
name.  We model it as a list of pairs kept sorted by key, where emplace
inserts at the upper bound of the equal range, so entries with equal keys
keep their insertion order. -/

/-- Lexicographic comparison of byte strings, as std::string operator less. -/
def strLt : Str → Str → Bool
  | _, [] => false
  | [], _ :: _ => true
  | a :: as, b :: bs => if a < b then true else if b < a then false else strLt as bs

/-- Model of std::multimap emplace: insert before the first strictly
greater key, i.e. at the upper bound of the equal range. -/
def mmInsert (k v : Str) : List (Str × Str) → List (Str × Str)
  | [] => [(k, v)]
  | (k1, v1) :: rest =>
      if strLt k k1 then (k, v) :: (k1, v1) :: rest
      else (k1, v1) :: mmInsert k v rest

/-- Model of multimap count for a key. -/
def mmCount (h : List (Str × Str)) (k : Str) : Nat :=
  (h.filter (fun p => p.1 == k)).length

/-- Model of the membership test multimap find giving an iterator not at end. -/
def mmContains (h : List (Str × Str)) (k : Str) : Bool :=
  h.any (fun p => p.1 == k)

/-- Model of reading the mapped value through the iterator returned by find. -/
def mmFind? (h : List (Str × Str)) (k : Str) : Option Str :=
  (h.find? (fun p => p.1 == k)).map (fun p => p.2)

/-- Model of the values visited by iterating a multimap equal_range. -/
def mmRange (h : List (Str × Str)) (k : Str) : List Str :=
  (h.filter (fun p => p.1 == k)).map (fun p => p.2)

/-! ## Stream primitives

An istringstream is modelled by the list of not yet consumed characters.
std::getline fails at end of stream, otherwise consumes up to and including
the next newline and returns the line without it. -/

/-- Model of std::getline on a string stream. -/
def getline : Str → Option (Str × Str)
  | [] => none
  | c :: cs =>
      some ((c :: cs).takeWhile (fun x => x != '\n'),
            ((c :: cs).dropWhile (fun x => x != '\n')).drop 1)

/-- Strip one trailing carriage return, as the parser does on each line. -/
def stripCR (l : Str) : Str :=
  if l.getLast? = some '\r' then l.dropLast else l

/-- Words of a line as extracted by repeated istringstream extraction:
skip whitespace, then take a maximal run of non-whitespace characters. -/
def wordsOf : Str → List Str
  | [] => []
  | c :: cs =>
      if isCxxSpace c then wordsOf cs
      else (c :: cs.takeWhile (fun x => !isCxxSpace x)) ::
           wordsOf (cs.dropWhile (fun x => !isCxxSpace x))
termination_by s => s.length
decreasing_by
  · simp
  · simp only [List.length_cons]
    have := (List.dropWhile_sublist (l := cs) (fun x => !isCxxSpace x)).length_le
    omega

/-! ## Request line (http_request_parser.cpp lines 106 to 124) -/

/-- Embedding of http_request_parser parse_request_line.  Returns the
success flag together with the extracted method, uri, version and the
stream remainder after the consumed line. -/
def parse_request_line (s : Str) : Bool × Str × Str × Str × Str :=
  let parsed : Str × Str × Str × Str :=
    match getline s with
    | none => ([], [], [], s)
    | some (line, r) =>
        if line.isEmpty then ([], [], [], r)
        else
          let line1 := stripCR line
          let ws := wordsOf line1
          ((ws[0]?).getD [], (ws[1]?).getD [], (ws[2]?).getD [], r)
  match parsed with
  | (m, u, v, r) =>
      if m.isEmpty || u.isEmpty || v.isEmpty then (false, m, u, v, r)
      else (true, m, u, v, r)

/-! ## Header block (http_request_parser.cpp lines 126 to 165) -/

/-- Drop the trailing characters satisfying the predicate. -/
def dropTrailing (p : Char → Bool) (s : Str) : Str :=
  (s.reverse.dropWhile p).reverse

/-- Embedding of the value trimming in parse_headers: find_first_not_of
and find_last_not_of each only rewrite the value when they find a
non space/tab character, so a value consisting entirely of spaces and
tabs is kept unchanged. -/
def trimValue (v : Str) : Str :=
  if v.any (fun c => !isSpTab c) then dropTrailing isSpTab (v.dropWhile isSpTab)
  else v

/-- Loop body of parse_headers: read lines until an empty line, split each
at the first colon, trim the value, keep a running size sum and fail with
none once it exceeds the header size limit. -/
def parseHeadersAux (maxHeaderSize : Nat) (acc : List (Str × Str)) (sz : Nat) (s : Str) :
    Option (List (Str × Str) × Str) :=
  match hg : getline s with
  | none => some (acc, [])
  | some (line, r) =>
      let line1 := stripCR line
      if line1.isEmpty then some (acc, r)
      else if line1.any (fun c => c == ':') then
        let name := line1.takeWhile (fun c => c != ':')
        let value := trimValue ((line1.dropWhile (fun c => c != ':')).drop 1)
        let sz1 := sz + name.length + value.length
        if sz1 > maxHeaderSize then none
        else parseHeadersAux maxHeaderSize (mmInsert (to_uppercase name) value acc) sz1 r
      else parseHeadersAux maxHeaderSize acc sz r
termination_by s.length
decreasing_by
  · exact (by
    cases s with
    | nil => simp [getline] at hg
    | cons c cs =>
        simp only [getline, Option.some.injEq, Prod.mk.injEq] at hg
        have hd : ((c :: cs).dropWhile (fun x => x != '\n')).length ≤ (c :: cs).length :=
          (List.dropWhile_sublist _).length_le
        cases hdw : (c :: cs).dropWhile (fun x => x != '\n') with
        | nil => rw [← hg.2]; simp [hdw]
        | cons d ds =>
            rw [← hg.2, hdw]
            rw [hdw] at hd
            simp only [List.drop_one, List.tail_cons]
            simp only [List.length_cons] at hd ⊢
            omega)
  · exact (by
    cases s with
    | nil => simp [getline] at hg
    | cons c cs =>
        simp only [getline, Option.some.injEq, Prod.mk.injEq] at hg
        have hd : ((c :: cs).dropWhile (fun x => x != '\n')).length ≤ (c :: cs).length :=
          (List.dropWhile_sublist _).length_le
        cases hdw : (c :: cs).dropWhile (fun x => x != '\n') with
        | nil => rw [← hg.2]; simp [hdw]
        | cons d ds =>
            rw [← hg.2, hdw]
            rw [hdw] at hd
            simp only [List.drop_one, List.tail_cons]
            simp only [List.length_cons] at hd ⊢
            omega)

/-- Embedding of http_request_parser parse_headers; none models the
BAD_HEADERS_TOO_LARGE failure return. -/
def parse_headers (maxHeaderSize : Nat) (s : Str) : Option (List (Str × Str) × Str) :=
  parseHeadersAux maxHeaderSize [] 0 s

/-! ## Transfer encoding detection (http_request_parser.cpp lines 167 to 178) -/

/-- Substring containment, modelling std::string find not returning npos. -/
def hasSubstr (pat : Str) : Str → Bool
  | [] => pat.isEmpty
  | c :: cs => pat.isPrefixOf (c :: cs) || hasSubstr pat cs

/-- Embedding of http_request_parser has_chunked_encoding over the values
of the Transfer-Encoding equal range. -/
def has_chunked_encoding (vals : List Str) : Bool :=
  vals.any (fun v => hasSubstr ("chunked".data) (to_lowercase v))

/-! ## std::stoull (called at http_request_parser.cpp line 76) -/

/-- Model of std::stoull in base 10: skip leading whitespace, accept one
optional sign, require at least one digit, wrap a negated value modulo
2 to the 64, and return none where the C++ function throws. -/
def stoull? (s : Str) : Option Nat :=
  let s1 := s.dropWhile isCxxSpace
  let signAndRest : Bool × Str :=
    match s1 with
    | '-' :: t => (true, t)
    | '+' :: t => (false, t)
    | t => (false, t)
  let ds := signAndRest.2.takeWhile isDigitChar
  if ds.isEmpty then none
  else
    let n := ds.foldl (fun n c => n * 10 + (c.toNat - '0'.toNat)) 0
    if n ≥ 2 ^ 64 then none
    else some (if signAndRest.1 then (2 ^ 64 - n) % 2 ^ 64 else n)

/-! ## Parse results, parse states and configuration -/

/-- Embedding of http_parse_result (src/libs/http/includes/http_parse_result.hpp). -/
structure http_parse_result where
  is_complete : Bool
  method : Str
  uri : Str
  http_version : Str
  headers : List (Str × Str)
  body : Str
deriving DecidableEq, Repr

/-- Embedding of parse_strategy (src/libs/http/includes/http_parse_state.hpp). -/
inductive parse_strategy where
  | CONTENT_LENGTH
  | CHUNKED_ENCODING
  | NONE
deriving DecidableEq, Repr

/-- Embedding of http_parse_state; last_activity is an abstract
monotonic timestamp in whole time units. -/
structure http_parse_state where
  connection_id : Str
  socket_fd : Int
  strategy : parse_strategy
  expected_body_length : Nat
  method : Str
  uri : Str
  http_version : Str
  headers : List (Str × Str)
  accumulated_body : Str
  last_activity : Nat
deriving DecidableEq, Repr

/-- Runtime configuration values of namespace cppress::http::config that
the parser reads; they are process wide mutable settings, so the embedded
functions take them as an explicit argument. -/
structure Config where
  MAX_HEADER_SIZE : Nat
  MAX_BODY_SIZE : Nat
deriving DecidableEq, Repr

/-! ## Content-Length body handling (http_request_parser.cpp lines 180 to 234) -/

/-- Embedding of http_request_parser parse_content_length_body.  The second
component is the parse state inserted into the pending map, when any. -/
def parse_content_length_body (cfg : Config) (connection_id : Str) (socket_fd : Int)
    (now : Nat) (method uri version : Str) (headers : List (Str × Str))
    (content_length : Nat) (rest : Str) :
    http_parse_result × Option http_parse_state :=
  let body := rest
  if body.length = content_length then
    (⟨true, method, uri, version, headers, body⟩, none)
  else if body.length > content_length || body.length > cfg.MAX_BODY_SIZE then
    (⟨true, "BAD_CONTENT_TOO_LARGE".data, uri, version, headers, []⟩, none)
  else
    (⟨false, method, uri, version, headers, body⟩,
     some ⟨connection_id, socket_fd, parse_strategy.CONTENT_LENGTH, content_length,
           method, uri, version, headers, body, now⟩)

/-- Embedding of http_request_parser accumulate_body_data.  The second
component is the state left in the pending map: the C++ code mutates the
state in place and only erases it on the completion path. -/
def accumulate_body_data (cfg : Config) (state : http_parse_state) (data : Str) :
    http_parse_result × Option http_parse_state :=
  let st := { state with accumulated_body := state.accumulated_body ++ data }
  if st.accumulated_body.length > cfg.MAX_BODY_SIZE then
    (⟨true, "BAD_CONTENT_TOO_LARGE".data, st.uri, st.http_version, st.headers, []⟩, some st)
  else if st.accumulated_body.length = st.expected_body_length then
    (⟨true, st.method, st.uri, st.http_version, st.headers, st.accumulated_body⟩, none)
  else if st.accumulated_body.length > st.expected_body_length ||
          st.accumulated_body.length > cfg.MAX_BODY_SIZE then
    (⟨true, "BAD_CONTENT_TOO_LARGE".data, st.uri, st.http_version, st.headers, []⟩, some st)
  else
    (⟨false, st.method, st.uri, st.http_version, [], []⟩, some st)

/-- Embedding of http_request_parser continue_parsing. -/
def continue_parsing (cfg : Config) (now : Nat) (state : http_parse_state) (data : Str) :
    http_parse_result × Option http_parse_state :=
  let state := { state with last_activity := now }
  if state.strategy ≠ parse_strategy.CONTENT_LENGTH then
    (⟨true, "UNSUPPORTED_PARSE_STRATEGY".data, state.uri, state.http_version, [], []⟩,
     some state)
  else accumulate_body_data cfg state data

/-! ## begin_parsing (http_request_parser.cpp lines 37 to 88) -/

/-- Embedding of http_request_parser begin_parsing.  The outer Option is
none where the C++ function lets the std::stoull exception escape; the
inner pair carries the result and the pending state inserted, when any. -/
def begin_parsing (cfg : Config) (connection_id : Str) (socket_fd : Int) (now : Nat)
    (data : Str) : Option (http_parse_result × Option http_parse_state) :=
  match parse_request_line data with
  | (ok, method, uri, version, rest) =>
    if !ok then
      some (⟨true, "BAD_METHOD_OR_URI_OR_VERSION".data, uri, version, [], []⟩, none)
    else
      match parse_headers cfg.MAX_HEADER_SIZE rest with
      | none => some (⟨true, "BAD_HEADERS_TOO_LARGE".data, uri, version, [], []⟩, none)
      | some (headers, rest2) =>
          let clKey := to_uppercase ("content-length".data)
          let teKey := to_uppercase ("Transfer-Encoding".data)
          let has_transfer_encoding :=
            mmContains headers teKey && has_chunked_encoding (mmRange headers teKey)
          let has_content_length := mmContains headers clKey
          if mmCount headers clKey > 1 || (has_content_length && has_transfer_encoding) then
            some (⟨true, "BAD_REPEATED_LENGTH_OR_TRANSFER_ENCODING_OR_BOTH".data,
                   uri, version, headers, []⟩, none)
          else if has_content_length then
            match stoull? ((mmFind? headers clKey).getD []) with
            | none => none
            | some content_length =>
                some (parse_content_length_body cfg connection_id socket_fd now
                        method uri version headers content_length rest2)
          else if has_transfer_encoding then
            some (⟨true, "UNSUPPORTED_TRANSFER_ENCODING_CHUNKED".data,
                   uri, version, headers, []⟩, none)
          else some (⟨true, method, uri, version, headers, []⟩, none)

/-! ## The pending map and the public parse entry point -/

/-- Pending request map of the parser, keyed by connection identifier. -/
def PendingMap := Str → Option http_parse_state

/-- Empty pending map. -/
def emptyPending : PendingMap := fun _ => none

/-- Pointwise update of the pending map; updating to none models erase. -/
def pmUpdate (m : PendingMap) (k : Str) (v : Option http_parse_state) : PendingMap :=
  fun k1 => if k1 = k then v else m k1

/-- Embedding of http_request_parser parse (lines 11 to 22): dispatch on
whether the connection already has a pending state.  none models an
escaped std::stoull exception. -/
def parse (cfg : Config) (m : PendingMap) (connection_id : Str) (socket_fd : Int)
    (now : Nat) (data : Str) : Option (http_parse_result × PendingMap) :=
  match m connection_id with
  | some st =>
      match continue_parsing cfg now st data with
      | (res, st1) => some (res, pmUpdate m connection_id st1)
  | none =>
      match begin_parsing cfg connection_id socket_fd now data with
      | none => none
      | some (res, none) => some (res, m)
      | some (res, some st) => some (res, pmUpdate m connection_id (some st))

/-- Embedding of http_request_parser cleanup_idle_connections (lines 90
to 104); the close_connection callback only acts on the socket and does
not affect the map, so it is omitted here. -/
def cleanup_idle_connections (m : PendingMap) (now maxIdle : Nat) : PendingMap :=
  fun id1 =>
    match m id1 with
    | some st => if now - st.last_activity > maxIdle then none else some st
    | none => none

/-- Feed a list of chunks for one connection through parse, returning the
final map and the result of the last parse call. -/
def runChunks (cfg : Config) (connection_id : Str) (socket_fd : Int) (now : Nat) :
    PendingMap → Option http_parse_result → List Str →
    Option (PendingMap × Option http_parse_result)
  | m, last, [] => some (m, last)
  | m, _, c :: cs =>
      match parse cfg m connection_id socket_fd now c with
      | none => none
      | some (res, m1) => runChunks cfg connection_id socket_fd now m1 (some res) cs

/-- Body bound asserted by the specification for one parse state. -/
def state_bounded (cfg : Config) (st : http_parse_state) : Prop :=
  st.accumulated_body.length ≤ st.expected_body_length ∧
  st.accumulated_body.length ≤ cfg.MAX_BODY_SIZE

/-- Body bound asserted for every state in the pending map. -/
def pending_bounded (cfg : Config) (m : PendingMap) : Prop :=
  ∀ (id1 : Str) (st : http_parse_state), m id1 = some st → state_bounded cfg st

/-! ## Reference views of the header section

The following functions replay the line consumption of parse_headers
without the size limit.  They give names to the raw header entries, the
total accounted size and the unread remainder of a stream, so that the
bounded parse_headers can be characterised against them. -/

/-- Stripped header lines of a stream, up to the first empty line. -/
def rawHeaderLines (s : Str) : List Str :=
  match hg : getline s with
    | none => []
    | some (line, r) =>
        let line1 := stripCR line
        if line1.isEmpty then [] else line1 :: rawHeaderLines r
termination_by s.length
decreasing_by exact (by
    cases s with
    | nil => simp [getline] at hg
    | cons c cs =>
        simp only [getline, Option.some.injEq, Prod.mk.injEq] at hg
        have hd : ((c :: cs).dropWhile (fun x => x != '\n')).length ≤ (c :: cs).length :=
          (List.dropWhile_sublist _).length_le
        cases hdw : (c :: cs).dropWhile (fun x => x != '\n') with
        | nil => rw [← hg.2]; simp [hdw]
        | cons d ds =>
            rw [← hg.2, hdw]
            rw [hdw] at hd
            simp only [List.drop_one, List.tail_cons]
            simp only [List.length_cons] at hd ⊢
            omega)

/-- Raw name and value (the bytes after the first colon, untrimmed) of
every header line that contains a colon. -/
def rawEntries (s : Str) : List (Str × Str) :=
  (rawHeaderLines s).filterMap (fun l =>
    if l.any (fun c => c == ':') then
      some (l.takeWhile (fun c => c != ':'), (l.dropWhile (fun c => c != ':')).drop 1)
    else none)

/-- Size accounted by parse_headers for one raw entry. -/
def entrySize (p : Str × Str) : Nat := p.1.length + (trimValue p.2).length

/-- Total size accounted by parse_headers over a list of raw entries. -/
def sizeSum (l : List (Str × Str)) : Nat := l.foldl (fun n p => n + entrySize p) 0

/-- Total size accounted by parse_headers over a stream. -/
def entriesSize (s : Str) : Nat := sizeSum (rawEntries s)

/-- Multimap obtained by storing a list of raw entries in order. -/
def buildHeaders (acc : List (Str × Str)) (l : List (Str × Str)) : List (Str × Str) :=
  l.foldl (fun a p => mmInsert (to_uppercase p.1) (trimValue p.2) a) acc

/-- Unread remainder of the stream once the header section has been
consumed: everything after the first empty line. -/
def restAfterHeaders (s : Str) : Str :=
  match hg : getline s with
    | none => []
    | some (line, r) =>
        if (stripCR line).isEmpty then r else restAfterHeaders r
termination_by s.length
decreasing_by exact (by
    cases s with
    | nil => simp [getline] at hg
    | cons c cs =>
        simp only [getline, Option.some.injEq, Prod.mk.injEq] at hg
        have hd : ((c :: cs).dropWhile (fun x => x != '\n')).length ≤ (c :: cs).length :=
          (List.dropWhile_sublist _).length_le
        cases hdw : (c :: cs).dropWhile (fun x => x != '\n') with
        | nil => rw [← hg.2]; simp [hdw]
        | cons d ds =>
            rw [← hg.2, hdw]
            rw [hdw] at hd
            simp only [List.drop_one, List.tail_cons]
            simp only [List.length_cons] at hd ⊢
            omega)

/-- Predicate that the stream contains a newline terminated empty line,
with every line before it also newline terminated: the header section is
entirely present and the loop of parse_headers stops inside the stream. -/
def hasBlankLine (s : Str) : Bool :=
  match hg : getline s with
    | none => false
    | some (line, r) =>
        s.contains '\n' && (if (stripCR line).isEmpty then true else hasBlankLine r)
termination_by s.length
decreasing_by exact (by
    cases s with
    | nil => simp [getline] at hg
    | cons c cs =>
        simp only [getline, Option.some.injEq, Prod.mk.injEq] at hg
        have hd : ((c :: cs).dropWhile (fun x => x != '\n')).length ≤ (c :: cs).length :=
          (List.dropWhile_sublist _).length_le
        cases hdw : (c :: cs).dropWhile (fun x => x != '\n') with
        | nil => rw [← hg.2]; simp [hdw]
        | cons d ds =>
            rw [← hg.2, hdw]
            rw [hdw] at hd
            simp only [List.drop_one, List.tail_cons]
            simp only [List.length_cons] at hd ⊢
            omega)

/-- Modelled from the spec: header values have leading and trailing ASCII
spaces and tabs trimmed, unconditionally.  Used to compare the stored
value against the trimming the specification describes. -/
def strictTrim (v : Str) : Str := dropTrailing isSpTab (v.dropWhile isSpTab)

/-- First line of a stream as getline would deliver it, without stripping. -/
def firstLineOf (s : Str) : Str :=
  match getline s with
  | none => []
  | some (line, _) => line

/-- Stream remainder after the first line has been consumed; when getline
fails nothing is consumed. -/
def restAfterFirstLine (s : Str) : Str :=
  match getline s with
  | none => s
  | some (_, r) => r

/-! ## Web server shell: method validation (server.hpp lines 619 to 662) -/

/-- Embedding of the known_methods table of unknown_method
(src/shared/src/utils.cpp:222), built from namespace cppress::shared::methods. -/
def known_methods : List Str :=
  ["GET".data, "POST".data, "PUT".data, "DELETE".data, "PATCH".data,
   "HEAD".data, "OPTIONS".data]

/-- Embedding of cppress shared unknown_method: std::find over the known
method list compared with the end iterator. -/
def unknown_method (m : Str) : Bool :=
  (known_methods.find? (fun k => k == m)).isNone

/-- Framing error sentinel strings of the parser (spec section 6). -/
def framing_sentinels : List Str :=
  ["BAD_METHOD_OR_URI_OR_VERSION".data, "BAD_HEADERS_TOO_LARGE".data,
   "BAD_REPEATED_LENGTH_OR_TRANSFER_ENCODING_OR_BOTH".data,
   "UNSUPPORTED_TRANSFER_ENCODING_CHUNKED".data, "BAD_CONTENT_TOO_LARGE".data,
   "UNSUPPORTED_PARSE_STRATEGY".data]

/-- Observable effect of server::on_request_received on the response and
the worker pool. -/
structure ServerOutcome where
  status_code : Nat
  status_message : Str
  response_sent : Bool
  connection_closed : Bool
  enqueued : Bool
deriving DecidableEq, Repr

/-- Embedding of server::on_request_received (server.hpp lines 619 to 662):
an unknown method gets status 400 Bad Request, a sent response and a closed
connection without enqueueing; a known method is enqueued on the worker
pool with the response still at its defaults of 200 OK, unsent and open. -/
def on_request_received (method : Str) : ServerOutcome :=
  if unknown_method method then
    { status_code := 400, status_message := "Bad Request".data,
      response_sent := true, connection_closed := true, enqueued := false }
  else
    { status_code := 200, status_message := "OK".data,
      response_sent := false, connection_closed := false, enqueued := true }

/-! ## Route handler chain (route.hpp lines 180 to 197)

exit_code is a C++ enum class over int with EXIT = 1, CONTINUE = 0 and
_ERROR = -1; a handler may produce an int outside these values through a
cast, so handler returns are modelled as integers.  A handler receives the
request and response objects and may mutate them, modelled by threading an
abstract state. -/

/-- Value of exit_code::EXIT. -/
def EXIT : Int := 1

/-- Value of exit_code::CONTINUE. -/
def CONTINUE : Int := 0

/-- Value of exit_code::_ERROR. -/
def ERROR_ : Int := -1

/-- Embedding of route::handle_request: run the handlers in order, return
at the first EXIT or _ERROR, skip past CONTINUE, return EXIT after the
loop, and throw (modelled by Except.error) on any other value. -/
def handle_request {α : Type} : List (α → α × Int) → α → Except Unit Int
  | [], _ => Except.ok EXIT
  | h :: t, s =>
      match h s with
      | (s1, resp) =>
        if resp = EXIT then Except.ok EXIT
        else if resp = ERROR_ then Except.ok ERROR_
        else if resp = CONTINUE then handle_request t s1
        else Except.error ()

/-- Modelled from the spec: the handler chain contract of section 4.6
stated in its own words, namely walk the chain in order, continue past
CONTINUE, stop and report the code on EXIT or ERROR, report EXIT when the
chain falls through, and treat any other return value as a programming
error raising an exception. -/
def chain_contract {α : Type} : List (α → α × Int) → α → Except Unit Int
  | [], _ => Except.ok EXIT
  | h :: t, s =>
      match h s with
      | (s1, resp) =>
        if resp = CONTINUE then chain_contract t s1
        else if resp = EXIT ∨ resp = ERROR_ then Except.ok resp
        else Except.error ()

/-! ## Route matching (route.hpp lines 156 to 162) -/

/-- Request object view used by route matching: method, path and the
mutable path parameter map. -/
structure WebRequest where
  method : Str
  path : Str
  path_params : List (Str × Str)
deriving DecidableEq, Repr

/-- Segments of a slash delimited path, empty segments dropped. -/
def splitSegments : Str → List Str
  | [] => []
  | c :: cs =>
      if c = '/' then splitSegments cs
      else (c :: cs.takeWhile (fun x => x != '/')) ::
           splitSegments (cs.dropWhile (fun x => x != '/'))
termination_by s => s.length
decreasing_by
  · simp
  · simp only [List.length_cons]
    have := (List.dropWhile_sublist (l := cs) (fun x => x != '/')).length_le
    omega

/-- Segment by segment unification of a route expression with a request
path: equal counts, each expression segment byte equal to the request
segment or a named parameter segment starting with a colon. -/
def segMatch : List Str → List Str → Option (List (Str × Str))
  | [], [] => some []
  | e :: es, p :: ps =>
      match e with
      | ':' :: name => (segMatch es ps).map (fun params => (name, p) :: params)
      | _ => if e = p then segMatch es ps else none
  | _, _ => none

/-- Modelled from the spec: match_path (declared in
src/libs/web/includes/utilities.hpp, its definition is not in src/),
following spec section 4.6: both strings are split on slash into non empty
segments, which must agree position by position, a leading colon segment
binding the request segment as a named parameter. -/
def match_path (expression rhs : Str) : Bool × List (Str × Str) :=
  match segMatch (splitSegments expression) (splitSegments rhs) with
  | some params => (true, params)
  | none => (false, [])

/-- Route with its method and path expression; the handler chain is not
needed for the matching claims. -/
structure route where
  method : Str
  expression : Str
deriving DecidableEq, Repr

/-- Embedding of route::match (route.hpp lines 156 to 162): run match_path
on the expression and the request path, store the parameters into the
request whenever the path matched, and only then conjoin the method
comparison.  Returns the possibly mutated request and the boolean result. -/
def route_match (rt : route) (req : WebRequest) : WebRequest × Bool :=
  match match_path rt.expression req.path with
  | (matched, path_params) =>
      let req1 := if matched then { req with path_params := path_params } else req
      (req1, rt.method == req.method && matched)

/-! ## General lemmas about the stream primitives -/

theorem getline_rest_lt {s l r : Str} (h : getline s = some (l, r)) :
    r.length < s.length := by
  cases s with
  | nil => simp [getline] at h
  | cons c cs =>
    simp only [getline, Option.some.injEq, Prod.mk.injEq] at h
    have hd : ((c :: cs).dropWhile (fun x => x != '\n')).length ≤ (c :: cs).length :=
      (List.dropWhile_sublist _).length_le
    cases hdw : (c :: cs).dropWhile (fun x => x != '\n') with
    | nil => rw [← h.2]; simp [hdw]
    | cons d ds =>
      rw [← h.2, hdw]
      rw [hdw] at hd
      simp only [List.drop_one, List.tail_cons]
      simp only [List.length_cons] at hd ⊢
      omega

/-! ## Lemmas about istringstream word extraction and the request line -/

theorem wordsOf_ne_nil : ∀ (l : Str), ∀ w ∈ wordsOf l, w ≠ [] := by
  intro l
  induction l using wordsOf.induct with
  | case1 => simp [wordsOf]
  | case2 c cs h ih =>
      intro w hw
      rw [wordsOf] at hw
      simp only [h, if_pos] at hw
      exact ih w hw
  | case3 c cs h ih =>
      intro w hw
      rw [wordsOf] at hw
      simp only [h, if_neg] at hw
      rcases List.mem_cons.mp hw with h1 | h2
      · subst h1; simp
      · exact ih w h2

theorem getElem?_getD_mem {l : List Str} {i : Nat} (h : i < l.length) :
    (l[i]?).getD [] ∈ l := by
  rw [List.getElem?_eq_getElem h]
  exact List.getElem_mem _

/-- Characterisation of parse_request_line: the line succeeds exactly when
the stripped first line yields at least three extraction words, the first
three words become method, uri and version, and the stream advances past
the first line. -/
theorem parse_request_line_eq (s : Str) :
    parse_request_line s =
      (decide (3 ≤ (wordsOf (stripCR (firstLineOf s))).length),
       ((wordsOf (stripCR (firstLineOf s)))[0]?).getD [],
       ((wordsOf (stripCR (firstLineOf s)))[1]?).getD [],
       ((wordsOf (stripCR (firstLineOf s)))[2]?).getD [],
       restAfterFirstLine s) := by
  unfold parse_request_line firstLineOf restAfterFirstLine
  cases hget : getline s with
  | none =>
      simp [stripCR, wordsOf]
  | some lr =>
      obtain ⟨line, r⟩ := lr
      cases line with
      | nil => simp [stripCR, wordsOf]
      | cons a as =>
        simp only [List.isEmpty_cons, Bool.false_eq_true, if_false]
        by_cases hlen : 3 ≤ (wordsOf (stripCR (a :: as))).length
        · have h0 : ((wordsOf (stripCR (a :: as)))[0]?).getD [] ≠ [] :=
            wordsOf_ne_nil (stripCR (a :: as)) _ (getElem?_getD_mem (by omega))
          have h1 : ((wordsOf (stripCR (a :: as)))[1]?).getD [] ≠ [] :=
            wordsOf_ne_nil (stripCR (a :: as)) _ (getElem?_getD_mem (by omega))
          have h2 : ((wordsOf (stripCR (a :: as)))[2]?).getD [] ≠ [] :=
            wordsOf_ne_nil (stripCR (a :: as)) _ (getElem?_getD_mem (by omega))
          rw [if_neg (by simp [Bool.or_eq_true, List.isEmpty_iff, h0, h1, h2]),
              decide_eq_true hlen]
        · have h2 : (wordsOf (stripCR (a :: as)))[2]? = none :=
            List.getElem?_eq_none (by omega)
          rw [if_pos (by simp [h2]), decide_eq_false hlen]

/-! ## Claim C5 -/

/-- C5 (amended): a first line whose stripped content splits into fewer
than three whitespace extraction words makes begin_parsing return a
completed result carrying the BAD_METHOD_OR_URI_OR_VERSION sentinel with
the partially extracted uri and version; extraction words are never empty,
and a first line with three or more words is not rejected: the first three
words become method, uri and version and the extras are ignored. -/
theorem claim_C5 :
    (∀ (cfg : Config) (connId : Str) (fd : Int) (now : Nat) (data : Str),
      (wordsOf (stripCR (firstLineOf data))).length < 3 →
      begin_parsing cfg connId fd now data =
        some (⟨true, "BAD_METHOD_OR_URI_OR_VERSION".data,
               ((wordsOf (stripCR (firstLineOf data)))[1]?).getD [],
               ((wordsOf (stripCR (firstLineOf data)))[2]?).getD [], [], []⟩, none)) ∧
    (∀ (data : Str), 3 ≤ (wordsOf (stripCR (firstLineOf data))).length →
      parse_request_line data =
        (true, ((wordsOf (stripCR (firstLineOf data)))[0]?).getD [],
         ((wordsOf (stripCR (firstLineOf data)))[1]?).getD [],
         ((wordsOf (stripCR (firstLineOf data)))[2]?).getD [],
         restAfterFirstLine data)) := by
  constructor
  · intro cfg connId fd now data hlt
    rw [begin_parsing, parse_request_line_eq, decide_eq_false (by omega)]
    simp
  · intro data hge
    rw [parse_request_line_eq, decide_eq_true hge]

unseal wordsOf parseHeadersAux in
/-- C5 counterexample: a request line with four whitespace tokens is not
rejected with BAD_METHOD_OR_URI_OR_VERSION as the claim demands; the
parser completes the request using the first three tokens. -/
theorem claim_C5_counterexample :
    (parse ⟨1024, 1024⟩ emptyPending ("c".data) 3 0
        ("GET / HTTP/1.1 EXTRA\r\n\r\n".data)).map (fun p => p.1) =
      some ⟨true, "GET".data, "/".data, "HTTP/1.1".data, [], []⟩ ∧
    ("GET".data : Str) ≠ "BAD_METHOD_OR_URI_OR_VERSION".data := by
  constructor
  · decide
  · decide

unseal wordsOf parseHeadersAux in
/-- C5 witness: the amended theorem applied to a concrete two token
request line and to a concrete four token request line. -/
theorem claim_C5_witness :
    begin_parsing ⟨1024, 1024⟩ ("c".data) 3 0 ("GET /\r\n\r\n".data) =
      some (⟨true, "BAD_METHOD_OR_URI_OR_VERSION".data, "/".data, [], [], []⟩, none) ∧
    parse_request_line ("GET / HTTP/1.1 EXTRA\r\nrest".data) =
      (true, "GET".data, "/".data, "HTTP/1.1".data, "rest".data) := by
  constructor
  · exact (claim_C5.1 ⟨1024, 1024⟩ ("c".data) 3 0 ("GET /\r\n\r\n".data)
      (by decide)).trans (by decide)
  · exact (claim_C5.2 ("GET / HTTP/1.1 EXTRA\r\nrest".data) (by decide)).trans (by decide)

/-! ## Claim C4 -/

/-- C4 (amended): when the parsed header section contains CONTENT-LENGTH
more than once, or contains both CONTENT-LENGTH and a TRANSFER-ENCODING
whose value contains the substring chunked case insensitively, then
begin_parsing returns a completed result whose method field is the
sentinel BAD_REPEATED_LENGTH_OR_TRANSFER_ENCODING_OR_BOTH.  A
TRANSFER-ENCODING header without a chunked token does not trigger the
sentinel even next to CONTENT-LENGTH. -/
theorem claim_C4 (cfg : Config) (connId : Str) (fd : Int) (now : Nat) (data : Str)
    (m u v s1 s2 : Str) (h : List (Str × Str))
    (hline : parse_request_line data = (true, m, u, v, s1))
    (hhdr : parse_headers cfg.MAX_HEADER_SIZE s1 = some (h, s2))
    (hcond : 1 < mmCount h ("CONTENT-LENGTH".data) ∨
      (mmContains h ("CONTENT-LENGTH".data) = true ∧
       has_chunked_encoding (mmRange h ("TRANSFER-ENCODING".data)) = true)) :
    begin_parsing cfg connId fd now data =
      some (⟨true, "BAD_REPEATED_LENGTH_OR_TRANSFER_ENCODING_OR_BOTH".data,
             u, v, h, []⟩, none) := by
  have hcl : to_uppercase ("content-length".data) = "CONTENT-LENGTH".data := by decide
  have hte : to_uppercase ("Transfer-Encoding".data) = "TRANSFER-ENCODING".data := by decide
  have hbool : (decide (mmCount h ("CONTENT-LENGTH".data) > 1) ||
      (mmContains h ("CONTENT-LENGTH".data) &&
       (mmContains h ("TRANSFER-ENCODING".data) &&
        has_chunked_encoding (mmRange h ("TRANSFER-ENCODING".data))))) = true := by
    rcases hcond with hgt | ⟨hmem, hch⟩
    · simp [hgt]
    · have hmemTE : mmContains h ("TRANSFER-ENCODING".data) = true := by
        have hne : mmRange h ("TRANSFER-ENCODING".data) ≠ [] := by
          intro hnil
          rw [has_chunked_encoding, hnil] at hch
          simp at hch
        rcases List.exists_mem_of_ne_nil _ hne with ⟨x, hx⟩
        rcases List.mem_map.mp hx with ⟨p, hp, _⟩
        have hpk := List.of_mem_filter hp
        exact List.any_eq_true.mpr ⟨p, List.mem_of_mem_filter hp, hpk⟩
      simp [hmem, hmemTE, hch]
  rw [begin_parsing, hline]
  simp only [Bool.not_true, Bool.false_eq_true, if_false, hhdr, hcl, hte]
  rw [if_pos hbool]

unseal wordsOf parseHeadersAux in
/-- C4 counterexample: CONTENT-LENGTH next to TRANSFER-ENCODING gzip is
accepted as a normal complete request, not rejected with the
BAD_REPEATED_LENGTH_OR_TRANSFER_ENCODING_OR_BOTH sentinel the claim
demands for every Transfer-Encoding value. -/
theorem claim_C4_counterexample :
    (parse ⟨1024, 1024⟩ emptyPending ("c".data) 3 0
        ("GET / HTTP/1.1\r\nCONTENT-LENGTH: 0\r\nTRANSFER-ENCODING: gzip\r\n\r\n".data)).map
        (fun p => p.1) =
      some ⟨true, "GET".data, "/".data, "HTTP/1.1".data,
            [("CONTENT-LENGTH".data, "0".data),
             ("TRANSFER-ENCODING".data, "gzip".data)], []⟩ ∧
    ("GET".data : Str) ≠ "BAD_REPEATED_LENGTH_OR_TRANSFER_ENCODING_OR_BOTH".data := by
  constructor
  · decide
  · decide

unseal wordsOf parseHeadersAux in
/-- C4 witness: the amended theorem applied to a concrete request with a
repeated CONTENT-LENGTH header and to one combining CONTENT-LENGTH with
TRANSFER-ENCODING chunked. -/
theorem claim_C4_witness :
    begin_parsing ⟨1024, 1024⟩ ("c".data) 3 0
        ("GET / HTTP/1.1\r\nCONTENT-LENGTH: 2\r\nCONTENT-LENGTH: 2\r\n\r\nab".data) =
      some (⟨true, "BAD_REPEATED_LENGTH_OR_TRANSFER_ENCODING_OR_BOTH".data,
             "/".data, "HTTP/1.1".data,
             [("CONTENT-LENGTH".data, "2".data), ("CONTENT-LENGTH".data, "2".data)],
             []⟩, none) ∧
    begin_parsing ⟨1024, 1024⟩ ("c".data) 3 0
        ("GET / HTTP/1.1\r\nCONTENT-LENGTH: 2\r\nTRANSFER-ENCODING: Chunked\r\n\r\n".data) =
      some (⟨true, "BAD_REPEATED_LENGTH_OR_TRANSFER_ENCODING_OR_BOTH".data,
             "/".data, "HTTP/1.1".data,
             [("CONTENT-LENGTH".data, "2".data),
              ("TRANSFER-ENCODING".data, "Chunked".data)], []⟩, none) := by
  constructor
  · exact claim_C4 ⟨1024, 1024⟩ ("c".data) 3 0
      ("GET / HTTP/1.1\r\nCONTENT-LENGTH: 2\r\nCONTENT-LENGTH: 2\r\n\r\nab".data)
      ("GET".data) ("/".data) ("HTTP/1.1".data)
      ("CONTENT-LENGTH: 2\r\nCONTENT-LENGTH: 2\r\n\r\nab".data) ("ab".data)
      [("CONTENT-LENGTH".data, "2".data), ("CONTENT-LENGTH".data, "2".data)]
      (by decide) (by decide) (Or.inl (by decide))
  · exact claim_C4 ⟨1024, 1024⟩ ("c".data) 3 0
      ("GET / HTTP/1.1\r\nCONTENT-LENGTH: 2\r\nTRANSFER-ENCODING: Chunked\r\n\r\n".data)
      ("GET".data) ("/".data) ("HTTP/1.1".data)
      ("CONTENT-LENGTH: 2\r\nTRANSFER-ENCODING: Chunked\r\n\r\n".data) ("".data)
      [("CONTENT-LENGTH".data, "2".data), ("TRANSFER-ENCODING".data, "Chunked".data)]
      (by decide) (by decide) (Or.inr ⟨by decide, by decide⟩)

/-! ## Step lemmas for the header loop and its reference views -/

theorem parseHeadersAux_none (max : Nat) (acc : List (Str × Str)) (sz : Nat) {s : Str}
    (h : getline s = none) : parseHeadersAux max acc sz s = some (acc, []) := by
  rw [parseHeadersAux.eq_def]
  split <;> simp_all

theorem parseHeadersAux_blank (max : Nat) (acc : List (Str × Str)) (sz : Nat) {s line r : Str}
    (h : getline s = some (line, r)) (hb : (stripCR line).isEmpty = true) :
    parseHeadersAux max acc sz s = some (acc, r) := by
  rw [parseHeadersAux.eq_def]
  split
  · simp_all
  · rename_i line1 r1 hg
    rw [h] at hg
    rw [Option.some.injEq, Prod.mk.injEq] at hg
    obtain ⟨rfl, rfl⟩ := hg
    simp [hb]

theorem parseHeadersAux_entry (max : Nat) (acc : List (Str × Str)) (sz : Nat) {s line r : Str}
    (h : getline s = some (line, r)) (hb : ¬(stripCR line).isEmpty = true)
    (hc : (stripCR line).any (fun c => c == ':') = true) :
    parseHeadersAux max acc sz s =
      (let name := (stripCR line).takeWhile (fun c => c != ':')
       let value := trimValue (((stripCR line).dropWhile (fun c => c != ':')).drop 1)
       if sz + name.length + value.length > max then none
       else parseHeadersAux max (mmInsert (to_uppercase name) value acc)
              (sz + name.length + value.length) r) := by
  rw [parseHeadersAux.eq_def]
  split
  · simp_all
  · rename_i line1 r1 hg
    rw [h] at hg
    rw [Option.some.injEq, Prod.mk.injEq] at hg
    obtain ⟨rfl, rfl⟩ := hg
    simp [hb, hc]

theorem parseHeadersAux_skip (max : Nat) (acc : List (Str × Str)) (sz : Nat) {s line r : Str}
    (h : getline s = some (line, r)) (hb : ¬(stripCR line).isEmpty = true)
    (hc : ¬(stripCR line).any (fun c => c == ':') = true) :
    parseHeadersAux max acc sz s = parseHeadersAux max acc sz r := by
  rw [parseHeadersAux.eq_def]
  split
  · simp_all
  · rename_i line1 r1 hg
    rw [h] at hg
    rw [Option.some.injEq, Prod.mk.injEq] at hg
    obtain ⟨rfl, rfl⟩ := hg
    simp [hb, hc]

theorem rawHeaderLines_none {s : Str} (h : getline s = none) : rawHeaderLines s = [] := by
  rw [rawHeaderLines.eq_def]
  split <;> simp_all

theorem rawHeaderLines_blank {s line r : Str} (h : getline s = some (line, r))
    (hb : (stripCR line).isEmpty = true) : rawHeaderLines s = [] := by
  rw [rawHeaderLines.eq_def]
  split
  · rfl
  · rename_i line1 r1 hg
    rw [h] at hg
    rw [Option.some.injEq, Prod.mk.injEq] at hg
    obtain ⟨rfl, rfl⟩ := hg
    simp [hb]

theorem rawHeaderLines_cons {s line r : Str} (h : getline s = some (line, r))
    (hb : ¬(stripCR line).isEmpty = true) :
    rawHeaderLines s = stripCR line :: rawHeaderLines r := by
  rw [rawHeaderLines.eq_def]
  split
  · simp_all
  · rename_i line1 r1 hg
    rw [h] at hg
    rw [Option.some.injEq, Prod.mk.injEq] at hg
    obtain ⟨rfl, rfl⟩ := hg
    simp [hb]

theorem restAfterHeaders_none {s : Str} (h : getline s = none) : restAfterHeaders s = [] := by
  rw [restAfterHeaders.eq_def]
  split <;> simp_all

theorem restAfterHeaders_blank {s line r : Str} (h : getline s = some (line, r))
    (hb : (stripCR line).isEmpty = true) : restAfterHeaders s = r := by
  rw [restAfterHeaders.eq_def]
  split
  · simp_all
  · rename_i line1 r1 hg
    rw [h] at hg
    rw [Option.some.injEq, Prod.mk.injEq] at hg
    obtain ⟨rfl, rfl⟩ := hg
    simp [hb]

theorem restAfterHeaders_step {s line r : Str} (h : getline s = some (line, r))
    (hb : ¬(stripCR line).isEmpty = true) : restAfterHeaders s = restAfterHeaders r := by
  rw [restAfterHeaders.eq_def]
  split
  · simp_all
  · rename_i line1 r1 hg
    rw [h] at hg
    rw [Option.some.injEq, Prod.mk.injEq] at hg
    obtain ⟨rfl, rfl⟩ := hg
    simp [hb]


theorem sizeSum_shift :
    ∀ (l : List (Str × Str)) (a : Nat),
      l.foldl (fun n p => n + entrySize p) a = a + sizeSum l := by
  intro l
  induction l with
  | nil => intro a; simp [sizeSum]
  | cons p t ih =>
      intro a
      rw [List.foldl_cons, ih]
      have h2 : sizeSum (p :: t) = 0 + entrySize p + sizeSum t := by
        rw [sizeSum, List.foldl_cons, ih]
      rw [h2]
      omega

theorem sizeSum_cons (p : Str × Str) (l : List (Str × Str)) :
    sizeSum (p :: l) = entrySize p + sizeSum l := by
  have := sizeSum_shift l (0 + entrySize p)
  rw [sizeSum, List.foldl_cons, this]
  omega

theorem rawEntries_none {s : Str} (h : getline s = none) : rawEntries s = [] := by
  rw [rawEntries, rawHeaderLines_none h]
  rfl

theorem rawEntries_blank {s line r : Str} (h : getline s = some (line, r))
    (hb : (stripCR line).isEmpty = true) : rawEntries s = [] := by
  rw [rawEntries, rawHeaderLines_blank h hb]
  rfl

theorem rawEntries_entry {s line r : Str} (h : getline s = some (line, r))
    (hb : ¬(stripCR line).isEmpty = true)
    (hc : (stripCR line).any (fun c => c == ':') = true) :
    rawEntries s = ((stripCR line).takeWhile (fun c => c != ':'),
      ((stripCR line).dropWhile (fun c => c != ':')).drop 1) :: rawEntries r := by
  rw [rawEntries, rawHeaderLines_cons h hb, rawEntries]
  simp only [List.filterMap_cons, hc, if_true]

theorem rawEntries_skip {s line r : Str} (h : getline s = some (line, r))
    (hb : ¬(stripCR line).isEmpty = true)
    (hc : ¬(stripCR line).any (fun c => c == ':') = true) :
    rawEntries s = rawEntries r := by
  rw [rawEntries, rawHeaderLines_cons h hb]
  simp only [List.filterMap_cons, hc, Bool.false_eq_true, if_false]
  rfl

/-- Characterisation of the header loop: starting from an accumulator
within bounds, the loop fails exactly when the total accounted size of the
raw entries overruns the limit, and otherwise returns the accumulated
multimap extended with the stored entries together with the stream
remainder after the empty line. -/
theorem parseHeadersAux_eq_aux (max : Nat) :
    ∀ (n : Nat) (acc : List (Str × Str)) (sz : Nat) (s : Str), s.length ≤ n → sz ≤ max →
    parseHeadersAux max acc sz s =
      (if max < sz + sizeSum (rawEntries s) then none
       else some (buildHeaders acc (rawEntries s), restAfterHeaders s)) := by
  intro n
  induction n with
  | zero =>
      intro acc sz s hlen hsz
      have hs : s = [] := List.eq_nil_of_length_eq_zero (by omega)
      subst hs
      have hg : getline ([] : Str) = none := rfl
      rw [parseHeadersAux_none max acc sz hg, restAfterHeaders_none hg, rawEntries_none hg]
      simp only [sizeSum, List.foldl_nil, buildHeaders]
      rw [if_neg (by omega)]
  | succ n ih =>
      intro acc sz s hlen hsz
      cases hg : getline s with
      | none =>
          rw [parseHeadersAux_none max acc sz hg, restAfterHeaders_none hg, rawEntries_none hg]
          simp only [sizeSum, List.foldl_nil, buildHeaders]
          rw [if_neg (by omega)]
      | some lr =>
          obtain ⟨line, r⟩ := lr
          have hr : r.length ≤ n := by
            have := getline_rest_lt hg
            omega
          by_cases hb : (stripCR line).isEmpty = true
          · rw [parseHeadersAux_blank max acc sz hg hb, restAfterHeaders_blank hg hb,
                rawEntries_blank hg hb]
            simp only [sizeSum, List.foldl_nil, buildHeaders]
            rw [if_neg (by omega)]
          · by_cases hc : (stripCR line).any (fun c => c == ':') = true
            · have hstep := parseHeadersAux_entry max acc sz hg hb hc
              dsimp only at hstep
              rw [hstep, rawEntries_entry hg hb hc, sizeSum_cons,
                  restAfterHeaders_step hg hb]
              have hent : entrySize ((stripCR line).takeWhile (fun c => c != ':'),
                  ((stripCR line).dropWhile (fun c => c != ':')).drop 1) =
                  ((stripCR line).takeWhile (fun c => c != ':')).length +
                  (trimValue (((stripCR line).dropWhile (fun c => c != ':')).drop 1)).length :=
                rfl
              by_cases hover : sz + ((stripCR line).takeWhile (fun c => c != ':')).length +
                  (trimValue (((stripCR line).dropWhile (fun c => c != ':')).drop 1)).length > max
              · rw [if_pos hover, if_pos (by rw [hent] at *; omega)]
              · rw [if_neg hover, ih _ _ r hr (by omega)]
                rcases Nat.lt_or_ge max (sz +
                    (entrySize ((stripCR line).takeWhile (fun c => c != ':'),
                      ((stripCR line).dropWhile (fun c => c != ':')).drop 1) +
                     sizeSum (rawEntries r))) with hlt | hge
                · rw [if_pos (by rw [hent] at *; omega), if_pos hlt]
                · rw [if_neg (by rw [hent] at *; omega), if_neg (by omega)]
                  simp only [buildHeaders, List.foldl_cons]
            · rw [parseHeadersAux_skip max acc sz hg hb hc, ih _ _ r hr hsz,
                  rawEntries_skip hg hb hc, restAfterHeaders_step hg hb]

/-- Characterisation of parse_headers in terms of the reference views. -/
theorem parse_headers_eq (max : Nat) (s : Str) :
    parse_headers max s =
      (if max < entriesSize s then none
       else some (buildHeaders [] (rawEntries s), restAfterHeaders s)) := by
  rw [parse_headers, parseHeadersAux_eq_aux max s.length [] 0 s (le_refl _) (by omega),
      entriesSize]
  simp

theorem mem_mmInsert (k v : Str) :
    ∀ (h : List (Str × Str)) (p : Str × Str),
      p ∈ mmInsert k v h ↔ p = (k, v) ∨ p ∈ h := by
  intro h
  induction h with
  | nil => intro p; simp [mmInsert]
  | cons q t ih =>
      intro p
      obtain ⟨k1, v1⟩ := q
      rw [mmInsert]
      by_cases hlt : strLt k k1 = true
      · simp [hlt]
      · simp only [hlt, Bool.false_eq_true, if_false, List.mem_cons, ih]
        tauto

theorem mmCount_cons (w : Str × Str) (l : List (Str × Str)) (k1 : Str) :
    mmCount (w :: l) k1 = (if w.1 == k1 then 1 else 0) + mmCount l k1 := by
  by_cases hw : w.1 == k1 <;> simp [mmCount, List.filter_cons, hw] <;> omega

theorem mmCount_mmInsert (k v k1 : Str) :
    ∀ h : List (Str × Str),
      mmCount (mmInsert k v h) k1 = (if k == k1 then 1 else 0) + mmCount h k1 := by
  intro h
  induction h with
  | nil =>
      rw [mmInsert]
      by_cases hk : k == k1 <;> simp [mmCount, hk]
  | cons q t ih =>
      obtain ⟨k2, v2⟩ := q
      rw [mmInsert]
      by_cases hlt : strLt k k2 = true
      · rw [if_pos hlt, mmCount_cons, mmCount_cons]
      · rw [if_neg hlt, mmCount_cons, mmCount_cons, ih]
        omega

theorem mmCount_buildHeaders (k1 : Str) :
    ∀ (l : List (Str × Str)) (acc : List (Str × Str)),
      mmCount (buildHeaders acc l) k1 =
        mmCount acc k1 + (l.filter (fun q => to_uppercase q.1 == k1)).length := by
  intro l
  induction l with
  | nil => intro acc; simp [buildHeaders]
  | cons q t ih =>
      intro acc
      rw [buildHeaders, List.foldl_cons]
      have hstep := ih (mmInsert (to_uppercase q.1) (trimValue q.2) acc)
      rw [buildHeaders] at hstep
      rw [hstep, mmCount_mmInsert]
      by_cases hk : to_uppercase q.1 == k1 <;>
        simp [List.filter_cons, hk] <;> omega

theorem mem_buildHeaders :
    ∀ (l : List (Str × Str)) (acc : List (Str × Str)) (p : Str × Str),
      p ∈ buildHeaders acc l →
      p ∈ acc ∨ ∃ q ∈ l, p.1 = to_uppercase q.1 ∧ p.2 = trimValue q.2 := by
  intro l
  induction l with
  | nil => intro acc p hp; rw [buildHeaders] at hp; exact Or.inl hp
  | cons q t ih =>
      intro acc p hp
      rw [buildHeaders, List.foldl_cons] at hp
      have hp2 := ih (mmInsert (to_uppercase q.1) (trimValue q.2) acc) p (by
        rw [buildHeaders]; exact hp)
      rcases hp2 with hin | ⟨q2, hq2, he⟩
      · rcases (mem_mmInsert _ _ _ _).mp hin with he | hin2
        · right
          exact ⟨q, List.mem_cons_self _ _, by rw [he], by rw [he]⟩
        · exact Or.inl hin2
      · right
        exact ⟨q2, List.mem_cons_of_mem _ hq2, he⟩

/-! ## Claim C6 -/

/-- C6: header size enforcement is against the running cumulative sum of
header name plus stored header value byte lengths: a header block whose
accounted total equals the configured limit exactly is accepted by
parse_headers with all entries stored, and a request whose accounted total
exceeds the limit by one byte makes begin_parsing return the framing error
BAD_HEADERS_TOO_LARGE. -/
theorem claim_C6 :
    (∀ (max : Nat) (s : Str), entriesSize s = max →
      parse_headers max s =
        some (buildHeaders [] (rawEntries s), restAfterHeaders s)) ∧
    (∀ (cfg : Config) (connId : Str) (fd : Int) (now : Nat) (data m u v s1 : Str),
      parse_request_line data = (true, m, u, v, s1) →
      entriesSize s1 = cfg.MAX_HEADER_SIZE + 1 →
      begin_parsing cfg connId fd now data =
        some (⟨true, "BAD_HEADERS_TOO_LARGE".data, u, v, [], []⟩, none)) := by
  constructor
  · intro max s hsz
    rw [parse_headers_eq, if_neg (by omega)]
  · intro cfg connId fd now data m u v s1 hline hsz
    rw [begin_parsing, hline]
    simp only [Bool.not_true, Bool.false_eq_true, if_false]
    rw [parse_headers_eq, if_pos (by omega)]

unseal wordsOf parseHeadersAux rawHeaderLines restAfterHeaders in
/-- C6 witness: the theorem applied to a header block accounting exactly
eight bytes under an eight byte limit, and to a request accounting nine
bytes under the same limit. -/
theorem claim_C6_witness :
    parse_headers 8 ("Host: ab\r\nX: q\r\n\r\ntail".data) =
      some ([("HOST".data, "ab".data), ("X".data, "q".data)], "tail".data) ∧
    begin_parsing ⟨8, 1024⟩ ("c".data) 3 0
        ("GET / HTTP/1.1\r\nHost: ab\r\nX: qq\r\n\r\n".data) =
      some (⟨true, "BAD_HEADERS_TOO_LARGE".data, "/".data, "HTTP/1.1".data,
             [], []⟩, none) := by
  constructor
  · exact (claim_C6.1 8 ("Host: ab\r\nX: q\r\n\r\ntail".data) (by decide)).trans
      (by decide)
  · exact claim_C6.2 ⟨8, 1024⟩ ("c".data) 3 0
      ("GET / HTTP/1.1\r\nHost: ab\r\nX: qq\r\n\r\n".data)
      ("GET".data) ("/".data) ("HTTP/1.1".data)
      ("Host: ab\r\nX: qq\r\n\r\n".data) (by decide) (by decide)

/-! ## Claim C7 -/

/-- C7 (amended): every successfully parsed header multimap is exactly the
multimap insertion of the raw entries of the stream, storing per entry the
uppercased name and the value after the first colon trimmed of leading and
trailing spaces and tabs, except that a value consisting entirely of
spaces and tabs is stored unchanged; duplicate names are preserved as
separate entries, one per raw occurrence. -/
theorem claim_C7 (max : Nat) (s : Str) (h : List (Str × Str)) (rest : Str)
    (hok : parse_headers max s = some (h, rest)) :
    h = buildHeaders [] (rawEntries s) ∧
    (∀ p ∈ h, ∃ q ∈ rawEntries s, p.1 = to_uppercase q.1 ∧ p.2 = trimValue q.2) ∧
    (∀ k, mmCount h k =
      ((rawEntries s).filter (fun q => to_uppercase q.1 == k)).length) ∧
    (∀ v : Str, v.any (fun c => !isSpTab c) = true → trimValue v = strictTrim v) := by
  rw [parse_headers_eq] at hok
  by_cases hc : max < entriesSize s
  · rw [if_pos hc] at hok
    cases hok
  · rw [if_neg hc] at hok
    rw [Option.some.injEq, Prod.mk.injEq] at hok
    obtain ⟨hh, -⟩ := hok
    refine ⟨hh.symm, ?_, ?_, ?_⟩
    · intro p hp
      rw [hh.symm] at hp
      rcases mem_buildHeaders (rawEntries s) [] p hp with hin | hq
      · cases hin
      · exact hq
    · intro k
      rw [hh.symm, mmCount_buildHeaders]
      simp [mmCount]
    · intro v hv
      rw [trimValue, if_pos hv]
      rfl

unseal parseHeadersAux rawHeaderLines restAfterHeaders in
/-- C7 counterexample: a header value consisting entirely of spaces is
stored verbatim, not trimmed to the empty string as the claim requires
for every value. -/
theorem claim_C7_counterexample :
    parse_headers 1024 ("X:   \r\n\r\nrest".data) =
      some ([("X".data, "   ".data)], "rest".data) ∧
    strictTrim ("   ".data) = [] ∧ ("   ".data : Str) ≠ [] := by
  refine ⟨by decide, by decide, by decide⟩

unseal parseHeadersAux rawHeaderLines restAfterHeaders in
/-- C7 witness: the amended theorem applied to a concrete header block
with a duplicated name, checking the stored multimap and the per name
entry count. -/
theorem claim_C7_witness :
    [("A".data, "x".data), ("A".data, "y".data)] =
      buildHeaders [] (rawEntries ("A: x\r\nA: y\r\n\r\n".data)) ∧
    mmCount [("A".data, "x".data), ("A".data, "y".data)] ("A".data) = 2 := by
  have h := claim_C7 1024 ("A: x\r\nA: y\r\n\r\n".data)
      [("A".data, "x".data), ("A".data, "y".data)] [] (by decide)
  refine ⟨h.1, ?_⟩
  rw [h.2.2.1 ("A".data)]
  decide

/-! ## Claim C2 -/

/-- C2 (amended): a Content-Length body of exactly MAX_BODY_SIZE bytes is
accepted as complete both in the first chunk and across continuation
chunks; a body one byte larger is rejected with BAD_CONTENT_TOO_LARGE
across continuation chunks always, and in the first chunk whenever its
size differs from the declared Content-Length; a first chunk whose body
bytes equal a declared Content-Length of MAX_BODY_SIZE plus one is
accepted complete instead, because the size equality test precedes the
limit test. -/
theorem claim_C2 :
    (∀ (cfg : Config) (connId : Str) (fd : Int) (now : Nat) (m u v : Str)
        (hh : List (Str × Str)) (rest : Str),
      rest.length = cfg.MAX_BODY_SIZE →
      parse_content_length_body cfg connId fd now m u v hh cfg.MAX_BODY_SIZE rest =
        (⟨true, m, u, v, hh, rest⟩, none)) ∧
    (∀ (cfg : Config) (connId : Str) (fd : Int) (now : Nat) (m u v : Str)
        (hh : List (Str × Str)) (cl : Nat) (rest : Str),
      rest.length = cfg.MAX_BODY_SIZE + 1 → rest.length ≠ cl →
      parse_content_length_body cfg connId fd now m u v hh cl rest =
        (⟨true, "BAD_CONTENT_TOO_LARGE".data, u, v, hh, []⟩, none)) ∧
    (∀ (cfg : Config) (st : http_parse_state) (data : Str),
      (st.accumulated_body ++ data).length = cfg.MAX_BODY_SIZE + 1 →
      accumulate_body_data cfg st data =
        (⟨true, "BAD_CONTENT_TOO_LARGE".data, st.uri, st.http_version, st.headers, []⟩,
         some { st with accumulated_body := st.accumulated_body ++ data })) ∧
    (∀ (cfg : Config) (st : http_parse_state) (data : Str),
      st.expected_body_length = cfg.MAX_BODY_SIZE →
      (st.accumulated_body ++ data).length = st.expected_body_length →
      accumulate_body_data cfg st data =
        (⟨true, st.method, st.uri, st.http_version, st.headers,
          st.accumulated_body ++ data⟩, none)) := by
  refine ⟨?_, ?_, ?_, ?_⟩
  · intro cfg connId fd now m u v hh rest hlen
    rw [parse_content_length_body, if_pos hlen]
  · intro cfg connId fd now m u v hh cl rest hlen hne
    rw [parse_content_length_body, if_neg hne, if_pos]
    simp only [Bool.or_eq_true, decide_eq_true_eq]
    omega
  · intro cfg st data hlen
    rw [accumulate_body_data]
    simp only
    rw [if_pos]
    simp only [hlen]
    omega
  · intro cfg st data hexp hlen
    rw [accumulate_body_data]
    simp only
    rw [if_neg (by simp only [hlen, hexp]; omega), if_pos hlen]

unseal wordsOf parseHeadersAux in
/-- C2 counterexample: a first chunk whose body is one byte larger than
MAX_BODY_SIZE is accepted as a complete request when the declared
Content-Length matches it, not rejected with BAD_CONTENT_TOO_LARGE as the
claim demands for every delivery shape. -/
theorem claim_C2_counterexample :
    (parse ⟨1024, 4⟩ emptyPending ("c".data) 3 0
        ("POST / HTTP/1.1\r\nCONTENT-LENGTH: 5\r\n\r\nabcde".data)).map (fun p => p.1) =
      some ⟨true, "POST".data, "/".data, "HTTP/1.1".data,
            [("CONTENT-LENGTH".data, "5".data)], "abcde".data⟩ ∧
    ("abcde".data : Str).length = 4 + 1 ∧
    ("POST".data : Str) ≠ "BAD_CONTENT_TOO_LARGE".data := by
  refine ⟨by decide, by decide, by decide⟩

/-- C2 witness: the amended theorem applied at a limit of four bytes to a
first chunk of exactly four bytes, a first chunk of five bytes with a
different declared length, a continuation overflow to five bytes and a
continuation completion at exactly four bytes. -/
theorem claim_C2_witness :
    parse_content_length_body ⟨1024, 4⟩ ("c".data) 3 0 ("POST".data) ("/".data)
        ("HTTP/1.1".data) [] 4 ("abcd".data) =
      (⟨true, "POST".data, "/".data, "HTTP/1.1".data, [], "abcd".data⟩, none) ∧
    parse_content_length_body ⟨1024, 4⟩ ("c".data) 3 0 ("POST".data) ("/".data)
        ("HTTP/1.1".data) [] 9 ("abcde".data) =
      (⟨true, "BAD_CONTENT_TOO_LARGE".data, "/".data, "HTTP/1.1".data, [], []⟩, none) ∧
    accumulate_body_data ⟨1024, 4⟩
        ⟨"c".data, 3, parse_strategy.CONTENT_LENGTH, 9, "POST".data, "/".data,
         "HTTP/1.1".data, [], "abc".data, 0⟩ ("de".data) =
      (⟨true, "BAD_CONTENT_TOO_LARGE".data, "/".data, "HTTP/1.1".data, [], []⟩,
       some ⟨"c".data, 3, parse_strategy.CONTENT_LENGTH, 9, "POST".data, "/".data,
             "HTTP/1.1".data, [], "abcde".data, 0⟩) ∧
    accumulate_body_data ⟨1024, 4⟩
        ⟨"c".data, 3, parse_strategy.CONTENT_LENGTH, 4, "POST".data, "/".data,
         "HTTP/1.1".data, [], "abc".data, 0⟩ ("d".data) =
      (⟨true, "POST".data, "/".data, "HTTP/1.1".data, [], "abcd".data⟩, none) := by
  refine ⟨?_, ?_, ?_, ?_⟩
  · exact (claim_C2.1 ⟨1024, 4⟩ ("c".data) 3 0 ("POST".data) ("/".data)
      ("HTTP/1.1".data) [] ("abcd".data) (by decide)).trans (by decide)
  · exact (claim_C2.2.1 ⟨1024, 4⟩ ("c".data) 3 0 ("POST".data) ("/".data)
      ("HTTP/1.1".data) [] 9 ("abcde".data) (by decide) (by decide)).trans (by decide)
  · exact (claim_C2.2.2.1 ⟨1024, 4⟩
      ⟨"c".data, 3, parse_strategy.CONTENT_LENGTH, 9, "POST".data, "/".data,
       "HTTP/1.1".data, [], "abc".data, 0⟩ ("de".data) (by decide)).trans (by decide)
  · exact (claim_C2.2.2.2 ⟨1024, 4⟩
      ⟨"c".data, 3, parse_strategy.CONTENT_LENGTH, 4, "POST".data, "/".data,
       "HTTP/1.1".data, [], "abc".data, 0⟩ ("d".data) (by decide) (by decide)).trans
      (by decide)

/-! ## Claim C3 -/

theorem parse_content_length_body_state {cfg : Config} {connId : Str} {fd : Int}
    {now : Nat} {m u v : Str} {hh : List (Str × Str)} {cl : Nat} {rest : Str}
    {res : http_parse_result} {stOpt : Option http_parse_state}
    (h : parse_content_length_body cfg connId fd now m u v hh cl rest = (res, stOpt)) :
    ∀ st1, stOpt = some st1 → state_bounded cfg st1 := by
  intro st1 hst1
  rw [parse_content_length_body] at h
  split at h
  · rw [Prod.mk.injEq] at h
    rw [← h.2] at hst1
    cases hst1
  · split at h
    · rw [Prod.mk.injEq] at h
      rw [← h.2] at hst1
      cases hst1
    · rename_i hne hcond
      rw [Prod.mk.injEq] at h
      rw [← h.2] at hst1
      rw [Option.some.injEq] at hst1
      subst hst1
      simp only [Bool.or_eq_true, decide_eq_true_eq, not_or, not_lt] at hcond
      constructor
      · exact hcond.1
      · exact hcond.2

theorem begin_parsing_state {cfg : Config} {connId : Str} {fd : Int} {now : Nat}
    {data : Str} {res : http_parse_result} {stOpt : Option http_parse_state}
    (h : begin_parsing cfg connId fd now data = some (res, stOpt)) :
    ∀ st1, stOpt = some st1 → state_bounded cfg st1 := by
  intro st1 hst1
  rw [begin_parsing] at h
  rcases hpr : parse_request_line data with ⟨ok, m, u, v, rest⟩
  rw [hpr] at h
  dsimp only at h
  split at h
  · rw [Option.some.injEq, Prod.mk.injEq] at h
    rw [← h.2] at hst1
    cases hst1
  · split at h
    · rw [Option.some.injEq, Prod.mk.injEq] at h
      rw [← h.2] at hst1
      cases hst1
    · split at h
      · rw [Option.some.injEq, Prod.mk.injEq] at h
        rw [← h.2] at hst1
        cases hst1
      · split at h
        · split at h
          · cases h
          · rw [Option.some.injEq] at h
            exact parse_content_length_body_state h st1 hst1
        · split at h
          · rw [Option.some.injEq, Prod.mk.injEq] at h
            rw [← h.2] at hst1
            cases hst1
          · rw [Option.some.injEq, Prod.mk.injEq] at h
            rw [← h.2] at hst1
            cases hst1

theorem accumulate_body_data_state {cfg : Config} {st : http_parse_state} {data : Str}
    {res : http_parse_result} {stOpt : Option http_parse_state}
    (h : accumulate_body_data cfg st data = (res, stOpt))
    (hm : res.method ≠ "BAD_CONTENT_TOO_LARGE".data) :
    ∀ st1, stOpt = some st1 → state_bounded cfg st1 := by
  intro st1 hst1
  rw [accumulate_body_data] at h
  split at h
  · rw [Prod.mk.injEq] at h
    rw [← h.1] at hm
    simp at hm
  · split at h
    · rw [Prod.mk.injEq] at h
      rw [← h.2] at hst1
      cases hst1
    · split at h
      · rw [Prod.mk.injEq] at h
        rw [← h.1] at hm
        simp at hm
      · rename_i hnot1 hne hnot3
        rw [Prod.mk.injEq] at h
        rw [← h.2] at hst1
        rw [Option.some.injEq] at hst1
        subst hst1
        simp only [Bool.or_eq_true, decide_eq_true_eq, not_or, not_lt] at hnot3
        refine ⟨?_, ?_⟩ <;> dsimp only at hnot3 ⊢ <;> omega

theorem continue_parsing_state {cfg : Config} {now : Nat} {st : http_parse_state}
    {data : Str} {res : http_parse_result} {stOpt : Option http_parse_state}
    (h : continue_parsing cfg now st data = (res, stOpt))
    (hb : state_bounded cfg st)
    (hm : res.method ≠ "BAD_CONTENT_TOO_LARGE".data) :
    ∀ st1, stOpt = some st1 → state_bounded cfg st1 := by
  intro st1 hst1
  rw [continue_parsing] at h
  split at h
  · rw [Prod.mk.injEq] at h
    rw [← h.2] at hst1
    rw [Option.some.injEq] at hst1
    subst hst1
    exact hb
  · exact accumulate_body_data_state h hm st1 hst1

/-- C3 (amended): the empty pending map satisfies the body bound, every
parse call whose result does not carry the BAD_CONTENT_TOO_LARGE sentinel
preserves it, and cleanup_idle_connections preserves it; a parse call that
does return BAD_CONTENT_TOO_LARGE from body accumulation leaves the
oversized state in the map, violating the bound until the connection is
cleaned up. -/
theorem claim_C3 (cfg : Config) :
    pending_bounded cfg emptyPending ∧
    (∀ (m : PendingMap) (connId : Str) (fd : Int) (now : Nat) (data : Str)
        (res : http_parse_result) (m1 : PendingMap),
      pending_bounded cfg m →
      parse cfg m connId fd now data = some (res, m1) →
      res.method ≠ "BAD_CONTENT_TOO_LARGE".data →
      pending_bounded cfg m1) ∧
    (∀ (m : PendingMap) (now maxIdle : Nat),
      pending_bounded cfg m →
      pending_bounded cfg (cleanup_idle_connections m now maxIdle)) := by
  refine ⟨?_, ?_, ?_⟩
  · intro id1 st h
    cases h
  · intro m connId fd now data res m1 hInv hp hm
    rw [parse] at hp
    cases hmid : m connId with
    | some st =>
        rw [hmid] at hp
        dsimp only at hp
        rcases hc : continue_parsing cfg now st data with ⟨res0, stOpt⟩
        rw [hc] at hp
        dsimp only at hp
        rw [Option.some.injEq, Prod.mk.injEq] at hp
        obtain ⟨hres, hm1⟩ := hp
        subst hres
        intro id2 st2 h2
        rw [← hm1] at h2
        rw [pmUpdate] at h2
        by_cases hid : id2 = connId
        · rw [if_pos hid] at h2
          exact continue_parsing_state hc (hInv connId st hmid) hm st2 h2
        · rw [if_neg hid] at h2
          exact hInv id2 st2 h2
    | none =>
        rw [hmid] at hp
        dsimp only at hp
        cases hbp : begin_parsing cfg connId fd now data with
        | none => rw [hbp] at hp; simp at hp
        | some pr =>
            obtain ⟨res0, stOpt⟩ := pr
            cases stOpt with
            | none =>
                rw [hbp] at hp
                dsimp only at hp
                rw [Option.some.injEq, Prod.mk.injEq] at hp
                rw [← hp.2]
                exact hInv
            | some st =>
                rw [hbp] at hp
                dsimp only at hp
                rw [Option.some.injEq, Prod.mk.injEq] at hp
                obtain ⟨hres, hm1⟩ := hp
                intro id2 st2 h2
                rw [← hm1] at h2
                rw [pmUpdate] at h2
                by_cases hid : id2 = connId
                · rw [if_pos hid] at h2
                  exact begin_parsing_state hbp st2 h2
                · rw [if_neg hid] at h2
                  exact hInv id2 st2 h2
  · intro m now maxIdle hInv id2 st2 h2
    rw [cleanup_idle_connections] at h2
    cases hmid : m id2 with
    | none => rw [hmid] at h2; simp at h2
    | some st =>
        rw [hmid] at h2
        dsimp only at h2
        split at h2
        · cases h2
        · rw [Option.some.injEq] at h2
          subst h2
          exact hInv id2 _ hmid

unseal wordsOf parseHeadersAux in
/-- C3 counterexample: after a continuation chunk overflows the declared
Content-Length, the BAD_CONTENT_TOO_LARGE result is returned but the
oversized state stays in the pending map, with eight accumulated bytes
against an expected length of five. -/
theorem claim_C3_counterexample :
    (runChunks ⟨1024, 10⟩ ("c".data) 3 0 emptyPending none
        ["POST / HTTP/1.1\r\nCONTENT-LENGTH: 5\r\n\r\nab".data, "cdefgh".data]).map
        (fun p => p.1 ("c".data)) =
      some (some ⟨"c".data, 3, parse_strategy.CONTENT_LENGTH, 5, "POST".data, "/".data,
        "HTTP/1.1".data, [("CONTENT-LENGTH".data, "5".data)], "abcdefgh".data, 0⟩) ∧
    ¬(("abcdefgh".data : Str).length ≤ 5) := by
  refine ⟨by decide, by decide⟩

unseal wordsOf parseHeadersAux in
/-- C3 witness: the preservation theorem applied to the first chunk of a
concrete split request, starting from the empty map. -/
theorem claim_C3_witness :
    pending_bounded ⟨1024, 10⟩ (pmUpdate emptyPending ("c".data)
      (some ⟨"c".data, 3, parse_strategy.CONTENT_LENGTH, 5, "POST".data, "/".data,
        "HTTP/1.1".data, [("CONTENT-LENGTH".data, "5".data)], "ab".data, 0⟩)) := by
  exact (claim_C3 ⟨1024, 10⟩).2.1 emptyPending ("c".data) 3 0
    ("POST / HTTP/1.1\r\nCONTENT-LENGTH: 5\r\n\r\nab".data)
    ⟨false, "POST".data, "/".data, "HTTP/1.1".data,
     [("CONTENT-LENGTH".data, "5".data)], "ab".data⟩
    (pmUpdate emptyPending ("c".data)
      (some ⟨"c".data, 3, parse_strategy.CONTENT_LENGTH, 5, "POST".data, "/".data,
        "HTTP/1.1".data, [("CONTENT-LENGTH".data, "5".data)], "ab".data, 0⟩))
    (claim_C3 ⟨1024, 10⟩).1 (by rfl) (by decide)

/-! ## Claim C8 -/

theorem find?_isNone_iff_not_mem (m : Str) :
    ∀ l : List Str, ((l.find? (fun k => k == m)).isNone = true ↔ m ∉ l) := by
  intro l
  induction l with
  | nil => simp
  | cons a t ih =>
      by_cases ha : a = m
      · subst ha
        simp [List.find?_cons]
      · have hb : (a == m) = false := beq_eq_false_iff_ne.mpr ha
        simp [List.find?_cons, hb, List.mem_cons, ih, Ne.symm ha]

/-- C8: on_request_received enqueues the request on the worker pool
exactly when the method is one of the seven known methods; any other
method string, the framing error sentinels included, receives status 400
Bad Request with a sent response and a closed connection and is never
enqueued. -/
theorem claim_C8 :
    (∀ m : Str, m ∈ known_methods →
      on_request_received m =
        { status_code := 200, status_message := "OK".data,
          response_sent := false, connection_closed := false, enqueued := true }) ∧
    (∀ m : Str, m ∉ known_methods →
      on_request_received m =
        { status_code := 400, status_message := "Bad Request".data,
          response_sent := true, connection_closed := true, enqueued := false }) ∧
    (∀ m : Str, m ∈ framing_sentinels →
      (on_request_received m).enqueued = false ∧
      (on_request_received m).status_code = 400) := by
  have hiff : ∀ m : Str, unknown_method m = true ↔ m ∉ known_methods := by
    intro m
    rw [unknown_method]
    exact find?_isNone_iff_not_mem m known_methods
  refine ⟨?_, ?_, ?_⟩
  · intro m hm
    rw [on_request_received, if_neg]
    intro hu
    exact (hiff m).mp hu hm
  · intro m hm
    rw [on_request_received, if_pos ((hiff m).mpr hm)]
  · intro m hm
    have hnot : m ∉ known_methods := by
      fin_cases hm <;> decide
    rw [on_request_received, if_pos ((hiff m).mpr hnot)]
    exact ⟨rfl, rfl⟩

/-- C8 witness: the theorem applied to the known method GET, the unknown
method BREW and the sentinel BAD_CONTENT_TOO_LARGE. -/
theorem claim_C8_witness :
    on_request_received ("GET".data) =
      { status_code := 200, status_message := "OK".data,
        response_sent := false, connection_closed := false, enqueued := true } ∧
    on_request_received ("BREW".data) =
      { status_code := 400, status_message := "Bad Request".data,
        response_sent := true, connection_closed := true, enqueued := false } ∧
    (on_request_received ("BAD_CONTENT_TOO_LARGE".data)).enqueued = false := by
  refine ⟨?_, ?_, ?_⟩
  · exact claim_C8.1 ("GET".data) (by decide)
  · exact claim_C8.2.1 ("BREW".data) (by decide)
  · exact (claim_C8.2.2 ("BAD_CONTENT_TOO_LARGE".data) (by decide)).1

/-! ## Claim C9 -/

/-- C9: route::handle_request runs the handlers in registration order and
agrees with the handler chain contract of the specification: it stops and
returns the code at the first handler returning EXIT or _ERROR, continues
past CONTINUE, returns EXIT when every handler returned CONTINUE, and
raises an exception on any return value outside the three codes; in
particular a chain whose handlers all return CONTINUE yields EXIT. -/
theorem claim_C9 {α : Type} (hs : List (α → α × Int)) (s : α) :
    handle_request hs s = chain_contract hs s ∧
    ((∀ h ∈ hs, ∀ x : α, (h x).2 = CONTINUE) → handle_request hs s = Except.ok EXIT) := by
  constructor
  · induction hs generalizing s with
    | nil => rfl
    | cons h t ih =>
        rw [handle_request, chain_contract]
        rcases hx : h s with ⟨s1, resp⟩
        dsimp only
        by_cases he : resp = EXIT
        · rw [if_pos he, if_neg (by rw [he]; decide), if_pos (Or.inl he), he]
        · rw [if_neg he]
          by_cases herr : resp = ERROR_
          · rw [if_pos herr, if_neg (by rw [herr]; decide), if_pos (Or.inr herr), herr]
          · rw [if_neg herr]
            by_cases hcont : resp = CONTINUE
            · rw [if_pos hcont, if_pos hcont]
              exact ih s1
            · rw [if_neg hcont, if_neg hcont, if_neg (by
                rintro (hh | hh)
                · exact he hh
                · exact herr hh)]
  · intro hall
    induction hs generalizing s with
    | nil => rfl
    | cons h t ih =>
        rw [handle_request]
        rcases hx : h s with ⟨s1, resp⟩
        dsimp only
        have hc : resp = CONTINUE := by
          have := hall h (List.mem_cons_self h t) s
          rw [hx] at this
          exact this
        rw [if_neg (by rw [hc]; decide), if_neg (by rw [hc]; decide), if_pos hc]
        exact ih s1 (fun g hg x => hall g (List.mem_cons_of_mem h hg) x)

/-- C9 witness: the theorem applied to a concrete two handler chain over
the unit state, one returning CONTINUE and one returning EXIT, and to an
all CONTINUE chain. -/
theorem claim_C9_witness :
    handle_request [fun s : Unit => (s, CONTINUE), fun s => (s, EXIT)] () =
      chain_contract [fun s : Unit => (s, CONTINUE), fun s => (s, EXIT)] () ∧
    handle_request [fun s : Unit => (s, CONTINUE)] () = Except.ok EXIT := by
  constructor
  · exact (claim_C9 [fun s : Unit => (s, CONTINUE), fun s => (s, EXIT)] ()).1
  · exact (claim_C9 [fun s : Unit => (s, CONTINUE)] ()).2 (by
      intro h hh x
      fin_cases hh
      rfl)

/-! ## Claim C10 -/

/-- C10: route::match writes the parameter map produced by match_path into
the request whenever the path expression matches the request path, even
when the route method differs from the request method, in which case the
boolean result is still false; a probe of a non selected route can thus
overwrite the request path parameters. -/
theorem claim_C10 (rt : route) (req : WebRequest) (ps : List (Str × Str))
    (hmp : match_path rt.expression req.path = (true, ps))
    (hmethod : rt.method ≠ req.method) :
    route_match rt req = ({ req with path_params := ps }, false) := by
  rw [route_match, hmp]
  dsimp only
  rw [if_pos rfl]
  have hb : (rt.method == req.method) = false := by
    rw [beq_eq_false_iff_ne]
    exact hmethod
  rw [hb]
  rfl

unseal splitSegments in
/-- C10 witness: a GET route probed with a POST request whose path
matches; the request parameter map, previously populated, is overwritten
while the match still reports false. -/
theorem claim_C10_witness :
    route_match ⟨"GET".data, "/users/:id".data⟩
      ⟨"POST".data, "/users/123".data, [("old".data, "x".data)]⟩ =
      (⟨"POST".data, "/users/123".data, [("id".data, "123".data)]⟩, false) := by
  exact (claim_C10 ⟨"GET".data, "/users/:id".data⟩
    ⟨"POST".data, "/users/123".data, [("old".data, "x".data)]⟩
    [("id".data, "123".data)] (by decide) (by decide)).trans (by decide)

/-! ## Claim C1: append lemmas for streams whose header section is complete -/

theorem takeDropWhile_append_stop {p : Char → Bool} :
    ∀ (s t : Str), (∃ x ∈ s, p x = false) →
      (s ++ t).takeWhile p = s.takeWhile p ∧
      (s ++ t).dropWhile p = s.dropWhile p ++ t ∧
      s.dropWhile p ≠ [] := by
  intro s
  induction s with
  | nil =>
      intro t h
      rcases h with ⟨x, hx, -⟩
      cases hx
  | cons a as ih =>
      intro t h
      by_cases hp : p a = true
      · have h2 : ∃ x ∈ as, p x = false := by
          rcases h with ⟨x, hx, hpx⟩
          rcases List.mem_cons.mp hx with rfl | hm
          · rw [hp] at hpx; cases hpx
          · exact ⟨x, hm, hpx⟩
        rcases ih t h2 with ⟨ht, hd, hne⟩
        refine ⟨?_, ?_, ?_⟩
        · rw [List.cons_append, List.takeWhile_cons, if_pos hp,
              List.takeWhile_cons, if_pos hp, ht]
        · rw [List.cons_append, List.dropWhile_cons, if_pos hp,
              List.dropWhile_cons, if_pos hp, hd]
        · rw [List.dropWhile_cons, if_pos hp]
          exact hne
      · refine ⟨?_, ?_, ?_⟩
        · rw [List.cons_append, List.takeWhile_cons, if_neg hp,
              List.takeWhile_cons, if_neg hp]
        · rw [List.cons_append, List.dropWhile_cons, if_neg hp,
              List.dropWhile_cons, if_neg hp, List.cons_append]
        · rw [List.dropWhile_cons, if_neg hp]
          exact List.cons_ne_nil a as

theorem getline_append {s : Str} (h : '\n' ∈ s) (t : Str) {l r : Str}
    (hg : getline s = some (l, r)) : getline (s ++ t) = some (l, r ++ t) := by
  have hstop : ∃ x ∈ s, (x != '\n') = false := ⟨'\n', h, by decide⟩
  rcases takeDropWhile_append_stop s t hstop with ⟨ht, hd, hne⟩
  cases s with
  | nil => cases h
  | cons a as =>
      rw [getline] at hg
      rw [Option.some.injEq, Prod.mk.injEq] at hg
      obtain ⟨hl, hr⟩ := hg
      rw [List.cons_append, getline, ← List.cons_append, ht, hd]
      rw [Option.some.injEq, Prod.mk.injEq]
      refine ⟨hl, ?_⟩
      cases hdw : (a :: as).dropWhile (fun x => x != '\n') with
      | nil => exact absurd hdw hne
      | cons d ds =>
          rw [← hr, hdw]
          simp

theorem hasBlankLine_none {s : Str} (h : getline s = none) : hasBlankLine s = false := by
  rw [hasBlankLine.eq_def]
  split <;> simp_all

theorem hasBlankLine_some {s line r : Str} (h : getline s = some (line, r)) :
    hasBlankLine s =
      (s.contains '\n' && (if (stripCR line).isEmpty then true else hasBlankLine r)) := by
  rw [hasBlankLine.eq_def]
  split
  · simp_all
  · rename_i line1 r1 hg
    rw [h] at hg
    rw [Option.some.injEq, Prod.mk.injEq] at hg
    obtain ⟨rfl, rfl⟩ := hg
    rfl

theorem header_views_append :
    ∀ (n : Nat) (s : Str), s.length ≤ n → hasBlankLine s = true → ∀ (t : Str),
      rawEntries (s ++ t) = rawEntries s ∧
      restAfterHeaders (s ++ t) = restAfterHeaders s ++ t := by
  intro n
  induction n with
  | zero =>
      intro s hlen hbl t
      have hs : s = [] := List.eq_nil_of_length_eq_zero (by omega)
      subst hs
      rw [hasBlankLine_none (s := []) rfl] at hbl
      cases hbl
  | succ n ih =>
      intro s hlen hbl t
      cases hg : getline s with
      | none =>
          rw [hasBlankLine_none hg] at hbl
          cases hbl
      | some lr =>
          obtain ⟨line, r⟩ := lr
          rw [hasBlankLine_some hg, Bool.and_eq_true] at hbl
          have hmem : '\n' ∈ s := by
            have h0 := hbl.1
            simpa using h0
          have hga : getline (s ++ t) = some (line, r ++ t) := getline_append hmem t hg
          by_cases hb : (stripCR line).isEmpty = true
          · rw [rawEntries_blank hga hb, rawEntries_blank hg hb,
                restAfterHeaders_blank hga hb, restAfterHeaders_blank hg hb]
            exact ⟨rfl, rfl⟩
          · have hbl2 : hasBlankLine r = true := by
              have := hbl.2
              rw [if_neg hb] at this
              exact this
            have hr : r.length ≤ n := by
              have := getline_rest_lt hg
              omega
            rcases ih r hr hbl2 t with ⟨he, hrest⟩
            by_cases hc : (stripCR line).any (fun c => c == ':') = true
            · rw [rawEntries_entry hga hb hc, rawEntries_entry hg hb hc, he,
                  restAfterHeaders_step hga hb, restAfterHeaders_step hg hb, hrest]
              exact ⟨rfl, rfl⟩
            · rw [rawEntries_skip hga hb hc, rawEntries_skip hg hb hc, he,
                  restAfterHeaders_step hga hb, restAfterHeaders_step hg hb, hrest]
              exact ⟨rfl, rfl⟩

theorem parse_request_line_append {s : Str} (hmem : '\n' ∈ s) (t : Str)
    {ok : Bool} {m u v r : Str} (hp : parse_request_line s = (ok, m, u, v, r)) :
    parse_request_line (s ++ t) = (ok, m, u, v, r ++ t) := by
  obtain ⟨l0, r0, hg⟩ : ∃ l0 r0, getline s = some (l0, r0) := by
    cases s with
    | nil => cases hmem
    | cons a as => exact ⟨_, _, rfl⟩
  have hga := getline_append hmem t hg
  have hf1 : firstLineOf (s ++ t) = l0 := by rw [firstLineOf, hga]
  have hf2 : firstLineOf s = l0 := by rw [firstLineOf, hg]
  have hr1 : restAfterFirstLine (s ++ t) = r0 ++ t := by rw [restAfterFirstLine, hga]
  have hr2 : restAfterFirstLine s = r0 := by rw [restAfterFirstLine, hg]
  rw [parse_request_line_eq] at hp
  rw [parse_request_line_eq, hf1, hr1]
  rw [hf2, hr2] at hp
  cases hp
  rfl

theorem parse_headers_append {max : Nat} {s : Str} (hbl : hasBlankLine s = true)
    (t : Str) {hh : List (Str × Str)} {s2 : Str}
    (h3 : parse_headers max s = some (hh, s2)) :
    parse_headers max (s ++ t) = some (hh, s2 ++ t) := by
  rcases header_views_append s.length s (le_refl _) hbl t with ⟨he, hrest⟩
  rw [parse_headers_eq] at h3
  rw [parse_headers_eq]
  by_cases hcond : max < entriesSize s
  · rw [if_pos hcond] at h3
    cases h3
  · rw [if_neg hcond] at h3
    rw [Option.some.injEq, Prod.mk.injEq] at h3
    have hsz : entriesSize (s ++ t) = entriesSize s := by
      simp only [entriesSize, he]
    rw [if_neg (by rw [hsz]; exact hcond)]
    rw [Option.some.injEq, Prod.mk.injEq]
    constructor
    · rw [he]
      exact h3.1
    · rw [hrest, h3.2]

theorem mmContains_of_count {h : List (Str × Str)} {k : Str} (hc : 0 < mmCount h k) :
    mmContains h k = true := by
  rw [mmCount] at hc
  rcases List.exists_mem_of_ne_nil _ (List.length_pos.mp hc) with ⟨p, hp⟩
  have hp2 := List.of_mem_filter hp
  exact List.any_eq_true.mpr ⟨p, List.mem_of_mem_filter hp, hp2⟩

/-- Characterisation of begin_parsing on a well formed Content-Length
request head: with a valid request line, accepted headers, a single
CONTENT-LENGTH, no chunked TRANSFER-ENCODING and a parseable length, the
function defers to parse_content_length_body on the remaining bytes. -/
theorem begin_parsing_cl (cfg : Config) (connId : Str) (fd : Int) (now : Nat)
    {data m u v s1 s2 : Str} {hh : List (Str × Str)} {L : Nat}
    (h1 : parse_request_line data = (true, m, u, v, s1))
    (h3 : parse_headers cfg.MAX_HEADER_SIZE s1 = some (hh, s2))
    (hcl : mmCount hh ("CONTENT-LENGTH".data) = 1)
    (hte : (mmContains hh ("TRANSFER-ENCODING".data) &&
            has_chunked_encoding (mmRange hh ("TRANSFER-ENCODING".data))) = false)
    (hst : stoull? ((mmFind? hh ("CONTENT-LENGTH".data)).getD []) = some L) :
    begin_parsing cfg connId fd now data =
      some (parse_content_length_body cfg connId fd now m u v hh L s2) := by
  have hkc : to_uppercase ("content-length".data) = "CONTENT-LENGTH".data := by decide
  have hkt : to_uppercase ("Transfer-Encoding".data) = "TRANSFER-ENCODING".data := by decide
  have hmemcl : mmContains hh ("CONTENT-LENGTH".data) = true :=
    mmContains_of_count (by omega)
  rw [begin_parsing, h1]
  dsimp only
  rw [h3]
  dsimp only
  rw [hkc, hkt]
  have hcond : (decide (mmCount hh ("CONTENT-LENGTH".data) > 1) ||
      (mmContains hh ("CONTENT-LENGTH".data) &&
       (mmContains hh ("TRANSFER-ENCODING".data) &&
        has_chunked_encoding (mmRange hh ("TRANSFER-ENCODING".data))))) = false := by
    simp [hcl, hte]
  rw [hcond]
  simp only [Bool.false_eq_true, if_false]
  rw [if_pos hmemcl, hst]
  rfl

theorem join_ne_nil_length {rest : List Str} (hne : rest ≠ [])
    (hall : ∀ c ∈ rest, c ≠ []) : 0 < (rest.flatten).length := by
  cases rest with
  | nil => exact absurd rfl hne
  | cons c cs =>
      have hc : c ≠ [] := hall c (List.mem_cons_self c cs)
      rw [List.flatten_cons, List.length_append]
      cases c with
      | nil => exact absurd rfl hc
      | cons a as => simp

/-- Feeding the remaining body chunks of a pending Content-Length request
one by one: every intermediate chunk returns need-more-data, and the final
chunk completes the request with the stored request line, headers and the
full accumulated body, erasing the parse state. -/
theorem runChunks_body (cfg : Config) (connId : Str) (fd : Int) (now : Nat) :
    ∀ (rest : List Str) (M : PendingMap) (st : http_parse_state)
      (last : Option http_parse_result),
      st.strategy = parse_strategy.CONTENT_LENGTH →
      st.accumulated_body.length + (rest.flatten).length = st.expected_body_length →
      st.expected_body_length ≤ cfg.MAX_BODY_SIZE →
      rest ≠ [] → (∀ c ∈ rest, c ≠ []) →
      ∃ m1, runChunks cfg connId fd now (pmUpdate M connId (some st)) last rest =
        some (m1, some ⟨true, st.method, st.uri, st.http_version, st.headers,
                        st.accumulated_body ++ rest.flatten⟩) ∧ m1 connId = none := by
  intro rest
  induction rest with
  | nil => intro M st last hstrat htotal hmax hne hall; exact absurd rfl hne
  | cons c cs ih =>
      intro M st last hstrat htotal hmax hne hall
      have hlook : pmUpdate M connId (some st) connId = some st := by
        rw [pmUpdate, if_pos rfl]
      rw [runChunks, parse, hlook]
      dsimp only
      rw [continue_parsing]
      rw [if_neg (by dsimp only; rw [hstrat]; intro hx; exact hx rfl)]
      rw [accumulate_body_data]
      dsimp only
      cases cs with
      | nil =>
          have hlen : (st.accumulated_body ++ c).length = st.expected_body_length := by
            rw [List.length_append]
            rw [List.flatten_cons, List.flatten_nil, List.append_nil] at htotal
            omega
          rw [if_neg (by rw [hlen]; omega), if_pos hlen]
          dsimp only
          refine ⟨pmUpdate (pmUpdate M connId (some st)) connId none, ?_, ?_⟩
          · rw [runChunks]
            rw [List.flatten_cons, List.flatten_nil, List.append_nil]
          · rw [pmUpdate, if_pos rfl]
      | cons c2 cs2 =>
          have hjoin : 0 < ((c2 :: cs2).flatten).length :=
            join_ne_nil_length (List.cons_ne_nil c2 cs2)
              (fun x hx => hall x (List.mem_cons_of_mem c hx))
          have hlen : (st.accumulated_body ++ c).length < st.expected_body_length := by
            rw [List.length_append]
            rw [List.flatten_cons, List.length_append] at htotal
            omega
          rw [if_neg (by omega), if_neg (by omega), if_neg (by
            simp only [Bool.or_eq_true, decide_eq_true_eq, not_or]
            omega)]
          dsimp only
          have hstep := ih (pmUpdate M connId (some st))
            ⟨st.connection_id, st.socket_fd, st.strategy, st.expected_body_length,
             st.method, st.uri, st.http_version, st.headers,
             st.accumulated_body ++ c, now⟩ (some ⟨false, st.method, st.uri,
               st.http_version, [], []⟩) hstrat (by
              dsimp only
              rw [List.length_append]
              rw [List.flatten_cons, List.length_append] at htotal
              omega) hmax (List.cons_ne_nil c2 cs2)
            (fun x hx => hall x (List.mem_cons_of_mem c hx))
          rcases hstep with ⟨m1, hrun, hnone⟩
          refine ⟨m1, ?_, hnone⟩
          dsimp only at hrun ⊢
          rw [List.flatten_cons, ← List.append_assoc]
          exact hrun

/-- C1 (amended): split delivery agrees with single shot delivery for a
well formed Content-Length request when the first chunk carries the whole
newline terminated header section, the declared length is within
MAX_BODY_SIZE, and the remaining body bytes are split into nonempty
chunks: both deliveries end in the same completed result with the same
method, uri, version, header multimap and body, and the split run leaves
no pending state.  Outside these conditions the two deliveries can
disagree, as the counterexample shows. -/
theorem claim_C1 (cfg : Config) (connId : Str) (fd : Int) (now : Nat)
    (c0 : Str) (rest : List Str) (m u v s1 s2 : Str) (hh : List (Str × Str)) (L : Nat)
    (hnl : '\n' ∈ c0)
    (h1 : parse_request_line c0 = (true, m, u, v, s1))
    (hbl : hasBlankLine s1 = true)
    (h3 : parse_headers cfg.MAX_HEADER_SIZE s1 = some (hh, s2))
    (hcl : mmCount hh ("CONTENT-LENGTH".data) = 1)
    (hte : (mmContains hh ("TRANSFER-ENCODING".data) &&
            has_chunked_encoding (mmRange hh ("TRANSFER-ENCODING".data))) = false)
    (hst : stoull? ((mmFind? hh ("CONTENT-LENGTH".data)).getD []) = some L)
    (hLmax : L ≤ cfg.MAX_BODY_SIZE)
    (htotal : s2.length + (rest.flatten).length = L)
    (hne : rest ≠ []) (hall : ∀ c ∈ rest, c ≠ []) :
    parse cfg emptyPending connId fd now (c0 ++ rest.flatten) =
      some (⟨true, m, u, v, hh, s2 ++ rest.flatten⟩, emptyPending) ∧
    (∃ m1, runChunks cfg connId fd now emptyPending none (c0 :: rest) =
      some (m1, some ⟨true, m, u, v, hh, s2 ++ rest.flatten⟩) ∧ m1 connId = none) := by
  have hjoin : 0 < (rest.flatten).length := join_ne_nil_length hne hall
  have hs2lt : s2.length < L := by omega
  constructor
  · have h1a := parse_request_line_append hnl rest.flatten h1
    have h3a := parse_headers_append hbl rest.flatten h3
    have hb := begin_parsing_cl cfg connId fd now h1a h3a hcl hte hst
    have hsingle : parse_content_length_body cfg connId fd now m u v hh L
        (s2 ++ rest.flatten) = (⟨true, m, u, v, hh, s2 ++ rest.flatten⟩, none) := by
      rw [parse_content_length_body,
          if_pos (by rw [List.length_append]; omega)]
    rw [parse]
    dsimp only [emptyPending]
    rw [hb, hsingle]
  · have hbegin := begin_parsing_cl cfg connId fd now h1 h3 hcl hte hst
    have hfirst : parse_content_length_body cfg connId fd now m u v hh L s2 =
        (⟨false, m, u, v, hh, s2⟩,
         some ⟨connId, fd, parse_strategy.CONTENT_LENGTH, L, m, u, v, hh, s2, now⟩) := by
      rw [parse_content_length_body, if_neg (by omega), if_neg (by
        simp only [Bool.or_eq_true, decide_eq_true_eq, not_or, not_lt]
        omega)]
    rw [runChunks, parse]
    dsimp only [emptyPending]
    rw [hbegin, hfirst]
    dsimp only
    have hrb := runChunks_body cfg connId fd now rest emptyPending
      ⟨connId, fd, parse_strategy.CONTENT_LENGTH, L, m, u, v, hh, s2, now⟩
      (some ⟨false, m, u, v, hh, s2⟩) rfl (by dsimp only; omega) hLmax hne hall
    rcases hrb with ⟨m1, hrun, hnone⟩
    dsimp only at hrun
    exact ⟨m1, hrun, hnone⟩

unseal wordsOf parseHeadersAux in
/-- C1 counterexample: splitting the byte stream of a minimal GET request
inside the request line changes the final parse result from the completed
GET request to the BAD_METHOD_OR_URI_OR_VERSION sentinel, so split
delivery does not agree with single shot delivery for every partition. -/
theorem claim_C1_counterexample :
    (parse ⟨1024, 1024⟩ emptyPending ("c".data) 3 0
        ("GET / HTTP/1.1\r\n\r\n".data)).map (fun p => p.1) =
      some ⟨true, "GET".data, "/".data, "HTTP/1.1".data, [], []⟩ ∧
    (runChunks ⟨1024, 1024⟩ ("c".data) 3 0 emptyPending none
        ["GET / ".data, "HTTP/1.1\r\n\r\n".data]).map (fun p => p.2) =
      some (some ⟨true, "BAD_METHOD_OR_URI_OR_VERSION".data, [], [], [], []⟩) ∧
    (⟨true, "GET".data, "/".data, "HTTP/1.1".data, [], []⟩ : http_parse_result) ≠
      ⟨true, "BAD_METHOD_OR_URI_OR_VERSION".data, [], [], [], []⟩ := by
  refine ⟨by decide, by decide, by decide⟩

unseal wordsOf parseHeadersAux rawHeaderLines restAfterHeaders hasBlankLine in
/-- C1 witness: the amended theorem applied to a concrete POST request
whose five body bytes arrive as two continuation chunks. -/
theorem claim_C1_witness :
    parse ⟨1024, 1024⟩ emptyPending ("c".data) 3 0
        ("POST / HTTP/1.1\r\nCONTENT-LENGTH: 5\r\n\r\nab".data ++
         (["cd".data, "e".data]).flatten) =
      some (⟨true, "POST".data, "/".data, "HTTP/1.1".data,
             [("CONTENT-LENGTH".data, "5".data)],
             "ab".data ++ (["cd".data, "e".data]).flatten⟩, emptyPending) ∧
    (∃ m1, runChunks ⟨1024, 1024⟩ ("c".data) 3 0 emptyPending none
        ("POST / HTTP/1.1\r\nCONTENT-LENGTH: 5\r\n\r\nab".data ::
         ["cd".data, "e".data]) =
      some (m1, some ⟨true, "POST".data, "/".data, "HTTP/1.1".data,
             [("CONTENT-LENGTH".data, "5".data)],
             "ab".data ++ (["cd".data, "e".data]).flatten⟩) ∧ m1 ("c".data) = none) := by
  exact claim_C1 ⟨1024, 1024⟩ ("c".data) 3 0
    ("POST / HTTP/1.1\r\nCONTENT-LENGTH: 5\r\n\r\nab".data)
    ["cd".data, "e".data] ("POST".data) ("/".data) ("HTTP/1.1".data)
    ("CONTENT-LENGTH: 5\r\n\r\nab".data) ("ab".data)
    [("CONTENT-LENGTH".data, "5".data)] 5
    (by decide) (by decide) (by decide) (by decide) (by decide) (by decide)
    (by decide) (by decide) (by decide) (by decide) (by decide)

end Cppress
